import Mathlib

/-!
A shallow embedding of the schema validation engine (Schema class: stripData,
nestData, flattenData, validateType, validateRequired, validateMinLength,
validateMaxLength, validateCustom, validateArrayTypes, setDefault, doTransform,
validate) of the firevault library, together with proofs about the embedded
definitions.

Modelling conventions:
* JS runtime values are the inductive `Value`; records (plain objects) are
  insertion-ordered association lists (`FieldList`) with unique keys, which is
  the iteration model of JS objects for non-index string keys (all keys used by
  the engine are schema field names).  JS numbers are modelled as `Int`
  (no claim involves fractional values).  `Date` and `RegExp` instances are
  opaque constructors: the engine never inspects their contents, it only
  branches on their kind.
* Code runs in strict mode (ES module / class bodies), so property creation on
  a primitive throws `TypeError`, and property reads on `undefined`/`null`
  throw `TypeError`.  Failures are `JsError`: `validationErr` for
  `throw new Error(msg)` in the engine, `typeError` for runtime TypeErrors.
* The embedding is instrumented with an event trace recording, for each field
  (identified by its key path from the root), which rule evaluators ran and
  when the default supplier / transform function were invoked.  The trace is
  pure instrumentation: it is threaded through a writer-style monad `Res` and
  never influences the computed result.
-/

/-- JS errors thrown by the engine: explicit `throw new Error(msg)` calls
(`validationErr`) and runtime TypeErrors (`typeError`). -/
inductive JsError : Type where
  | validationErr (msg : String)
  | typeError (msg : String)
deriving DecidableEq, Repr

mutual
/-- JS runtime values handled by the engine. -/
inductive Value : Type where
  | vUndefined : Value
  | vNull : Value
  | vBool (b : Bool) : Value
  | vNum (n : Int) : Value
  | vStr (s : String) : Value
  | vDate : Value
  | vRegExp : Value
  | vArr (elems : List Value) : Value
  | vObj (fields : FieldList) : Value
/-- Fields of a plain JS object, in insertion order, keys unique. -/
inductive FieldList : Type where
  | fnil : FieldList
  | fcons (k : String) (v : Value) (tl : FieldList) : FieldList
end

open Value FieldList

/-- Result of `typeof value` for the modelled values. -/
def typeofV : Value → String
  | vUndefined => "undefined"
  | vNull => "object"
  | vBool _ => "boolean"
  | vNum _ => "number"
  | vStr _ => "string"
  | vDate => "object"
  | vRegExp => "object"
  | vArr _ => "object"
  | vObj _ => "object"

/-- `Array.isArray value`. -/
def isArrayV : Value → Bool
  | vArr _ => true
  | _ => false

/-- Kinds of events recorded by the instrumentation. -/
inductive Rule : Type where
  | rDefaultInvoked
  | rRequired
  | rType
  | rMaxLength
  | rMinLength
  | rCustom
  | rArrayOf
  | rTransformInvoked
  | rNested
deriving DecidableEq, Repr

/-- One trace event: a rule evaluation step for the field whose key path from
the validation root is `path`. -/
structure Event : Type where
  path : List String
  rule : Rule
deriving DecidableEq, Repr

/-- Writer-style result monad: an `Except` outcome together with the event
trace produced so far (in execution order). -/
structure Res (α : Type) : Type where
  res : Except JsError α
  tr : List Event
deriving Repr

instance : Monad Res where
  pure a := ⟨Except.ok a, []⟩
  bind x f :=
    match x with
    | ⟨Except.error e, t⟩ => ⟨Except.error e, t⟩
    | ⟨Except.ok a, t⟩ => ⟨(f a).res, t ++ (f a).tr⟩

/-- Record one event. -/
def emit (e : Event) : Res Unit := ⟨Except.ok (), [e]⟩

/-- Lift a plain fallible computation (no events) into `Res`. -/
def liftE {α : Type} : Except JsError α → Res α := fun x => ⟨x, []⟩

@[simp] theorem Res.bind_ok {α β : Type} (a : α) (t : List Event) (f : α → Res β) :
    (bind (⟨Except.ok a, t⟩ : Res α) f) = ⟨(f a).res, t ++ (f a).tr⟩ := rfl

@[simp] theorem Res.bind_error {α β : Type} (e : JsError) (t : List Event) (f : α → Res β) :
    (bind (⟨Except.error e, t⟩ : Res α) f) = ⟨Except.error e, t⟩ := rfl

@[simp] theorem Res.pure_def {α : Type} (a : α) : (pure a : Res α) = ⟨Except.ok a, []⟩ := rfl

@[simp] theorem Res.liftE_ok {α : Type} (a : α) : liftE (Except.ok a) = (⟨Except.ok a, []⟩ : Res α) := rfl

@[simp] theorem Res.liftE_error {α : Type} (e : JsError) :
    liftE (Except.error e) = (⟨Except.error e, []⟩ : Res α) := rfl

@[simp] theorem Res.emit_def (e : Event) : emit e = ⟨Except.ok (), [e]⟩ := rfl

/-- Look a key up in an object's field list (`obj[k]`, distinguishing a missing
key from a stored `undefined`, which the engine itself never does). -/
def lookupF : FieldList → String → Option Value
  | fnil, _ => none
  | fcons k v tl, q => if k == q then some v else lookupF tl q

/-- JS property assignment on a plain object: update in place if the key
exists (keeping its position), otherwise append. -/
def setField : FieldList → String → Value → FieldList
  | fnil, q, w => fcons q w fnil
  | fcons k v tl, q, w => if k == q then fcons k w tl else fcons k v (setField tl q w)

/-- Number of fields (`Object.keys(obj).length` for unique keys). -/
def lenF : FieldList → Nat
  | fnil => 0
  | fcons _ _ tl => lenF tl + 1

/-- Keys of an object in order. -/
def keysF : FieldList → List String
  | fnil => []
  | fcons k _ tl => k :: keysF tl

/-- Property read `value[key]`.  Reading from `undefined`/`null` throws a
TypeError; reading a schema-field-named property from any other primitive
yields `undefined` (string index/length properties are never schema keys). -/
def getProp : Value → String → Except JsError Value
  | vObj fs, key => Except.ok ((lookupF fs key).getD vUndefined)
  | vUndefined, key =>
    Except.error (JsError.typeError ("Cannot read properties of undefined (reading '" ++ key ++ "')"))
  | vNull, key =>
    Except.error (JsError.typeError ("Cannot read properties of null (reading '" ++ key ++ "')"))
  | _, _ => Except.ok vUndefined

/-- Property write `value[key] = w`.  Strict mode: writing to a primitive or
to `undefined`/`null` throws a TypeError.  Expando writes onto `Date`/`RegExp`
objects succeed in JS but are not observable through the engine (it never
reads them back through a `Date`); they are modelled as lost writes. -/
def setProp : Value → String → Value → Except JsError Value
  | vObj fs, key, w => Except.ok (vObj (setField fs key w))
  | vDate, _, _ => Except.ok vDate
  | vRegExp, _, _ => Except.ok vRegExp
  | vUndefined, key, _ =>
    Except.error (JsError.typeError ("Cannot set properties of undefined (setting '" ++ key ++ "')"))
  | vNull, key, _ =>
    Except.error (JsError.typeError ("Cannot set properties of null (setting '" ++ key ++ "')"))
  | _, key, _ =>
    Except.error (JsError.typeError ("Cannot create property '" ++ key ++ "' on a primitive"))

/-- `Object.keys(value).length`, as evaluated by the length checks when
`typeof value === 'object'`: throws on `null`, counts own enumerable keys
otherwise (0 for `Date`/`RegExp`, the element count for arrays). -/
def objKeyCount : Value → Except JsError Int
  | vNull => Except.error (JsError.typeError "Cannot convert undefined or null to object")
  | vUndefined => Except.error (JsError.typeError "Cannot convert undefined or null to object")
  | vObj fs => Except.ok (lenF fs)
  | vArr es => Except.ok es.length
  | _ => Except.ok 0

/-! ## Path codec (`nestData` / `flattenData`) and stripper (`stripData`) -/

/-- `key.split(".")` on the character list: splitting on `'.'`, keeping empty
segments, always returning at least one segment (as JS `String.split`). -/
def splitChars : List Char → List (List Char)
  | [] => [[]]
  | c :: rest =>
    if c = '.' then [] :: splitChars rest
    else
      match splitChars rest with
      | s :: ss => (c :: s) :: ss
      | [] => [[c]]

/-- `key.split(".")`. -/
def splitKey (k : String) : List String :=
  (splitChars k.data).map (fun cs => String.mk cs)

/-- Joining path segments back with `"."` (the shape of the keys that
`flattenData` produces by concatenation). -/
def joinSegs : List String → String
  | [] => ""
  | [s] => s
  | s :: rest => s ++ "." ++ joinSegs rest

/-- One insertion step of `nestData`: walk the split key, reusing an existing
plain-object level, replacing a stored `undefined` (or absent) level by a
fresh `{}`, and assigning the value at the last segment.  Walking *through*
any other existing value throws a TypeError (strict mode: the code reads the
next property of a primitive and then attempts to create a property on it). -/
def insertPath : FieldList → List String → Value → Except JsError FieldList
  | t, [], _ => Except.ok t
  | t, [s], w => Except.ok (setField t s w)
  | t, s :: s2 :: rest, w =>
    match lookupF t s with
    | none => do
      let sub ← insertPath fnil (s2 :: rest) w
      Except.ok (setField t s (vObj sub))
    | some vUndefined => do
      let sub ← insertPath fnil (s2 :: rest) w
      Except.ok (setField t s (vObj sub))
    | some (vObj sub) => do
      let sub2 ← insertPath sub (s2 :: rest) w
      Except.ok (setField t s (vObj sub2))
    | some _ =>
      Except.error (JsError.typeError ("Cannot create property '" ++ s2 ++ "' on a non-object value at '" ++ s ++ "'"))

/-- The `for (const key in data)` loop of `nestData`, threading the object
under construction. -/
def nestFieldsAux : FieldList → FieldList → Except JsError FieldList
  | acc, fnil => Except.ok acc
  | acc, fcons k v tl => do
    let acc2 ← insertPath acc (splitKey k) v
    nestFieldsAux acc2 tl

/-- `nestData(data)`: builds a fresh nested object from dot-path keys.
A `for ... in` loop over a non-object iterates nothing, so any non-object
input produces `{}`. -/
def nestData : Value → Except JsError Value
  | vObj fs => (nestFieldsAux fnil fs).map vObj
  | _ => Except.ok (vObj fnil)

/-- `Object.assign(dst, src)`: assigns the fields of `src` onto `dst`, in
order. -/
def assignFields : FieldList → FieldList → FieldList
  | dst, fnil => dst
  | dst, fcons k v tl => assignFields (setField dst k v) tl

mutual
/-- The `Object.entries(data).forEach` loop of `flattenData`, threading the
accumulated result object. -/
def flattenAcc (acc : FieldList) (pfx : String) : FieldList → FieldList
  | fnil => acc
  | fcons k v tl => flattenAcc (flattenStep acc pfx k v) pfx tl
/-- One entry of the `flattenData` loop: plain nested mappings (objects other
than `null`, `Date`, arrays and `RegExp`) are flattened recursively and merged
with `Object.assign`; every other value becomes a `prefix+key` leaf. -/
def flattenStep (acc : FieldList) (pfx k : String) : Value → FieldList
  | vObj fs => assignFields acc (flattenAcc fnil (pfx ++ k ++ ".") fs)
  | w => setField acc (pfx ++ k) w
end

/-- `flattenData(data, prefix)` restricted to an object's fields (the engine
only ever calls it on plain objects). -/
def flattenData (fs : FieldList) (pfx : String := "") : FieldList :=
  flattenAcc fnil pfx fs

/-- `flattenData` applied to the working record at the end of `validate`:
`Object.entries` throws on `undefined`/`null` and yields nothing for other
primitives. -/
def flattenTop : Value → Except JsError Value
  | vObj fs => Except.ok (vObj (flattenData fs))
  | vUndefined => Except.error (JsError.typeError "Cannot convert undefined or null to object")
  | vNull => Except.error (JsError.typeError "Cannot convert undefined or null to object")
  | _ => Except.ok (vObj fnil)

/-! ## Schema representation and per-field rule evaluators -/

mutual
/-- One field definition of the schema.  The polymorphic `boolean | [boolean,
string]` (and number/predicate) attributes are modelled as an optional value
paired with an optional custom message (`none` message for the scalar form,
matching the code's choice of `''`).  The `default`, `validate` and
`transform` attributes are modelled at their TypeScript types (functions), so
the code's runtime `typeof ... !== 'function'` guards cannot fire. -/
inductive FieldDef : Type where
  | mk (type? : Option String)
       (required? : Option (Bool × Option String))
       (maxLength? : Option (Int × Option String))
       (minLength? : Option (Int × Option String))
       (validateFn? : Option ((Value → Bool) × Option String))
       (transformFn? : Option (Value → Value))
       (defaultFn? : Option (Unit → Value))
       (arrayOf? : Option String)
       (schema? : Option SchemaFields) : FieldDef
/-- A schema node: field name / definition pairs in declaration order. -/
inductive SchemaFields : Type where
  | snil : SchemaFields
  | scons (key : String) (d : FieldDef) (tl : SchemaFields) : SchemaFields
end

open SchemaFields

def FieldDef.type? : FieldDef → Option String
  | .mk t _ _ _ _ _ _ _ _ => t
def FieldDef.required? : FieldDef → Option (Bool × Option String)
  | .mk _ r _ _ _ _ _ _ _ => r
def FieldDef.maxLength? : FieldDef → Option (Int × Option String)
  | .mk _ _ m _ _ _ _ _ _ => m
def FieldDef.minLength? : FieldDef → Option (Int × Option String)
  | .mk _ _ _ m _ _ _ _ _ => m
def FieldDef.validateFn? : FieldDef → Option ((Value → Bool) × Option String)
  | .mk _ _ _ _ v _ _ _ _ => v
def FieldDef.transformFn? : FieldDef → Option (Value → Value)
  | .mk _ _ _ _ _ tf _ _ _ => tf
def FieldDef.defaultFn? : FieldDef → Option (Unit → Value)
  | .mk _ _ _ _ _ _ df _ _ => df
def FieldDef.arrayOf? : FieldDef → Option String
  | .mk _ _ _ _ _ _ _ a _ => a
def FieldDef.schema? : FieldDef → Option SchemaFields
  | .mk _ _ _ _ _ _ _ _ s => s

/-- Look a field name up in a schema node (`schema[key]`). -/
def lookupSchema : SchemaFields → String → Option FieldDef
  | snil, _ => none
  | scons k d tl, q => if k == q then some d else lookupSchema tl q

/-- Modelled from the spec: the repository's `schema-types` module is not in
the provided sources; per the spec the supported type enum is
`{string, number, boolean, object, array}` (`Object.values(SchemaTypes)`). -/
def schemaTypes : List String := ["string", "number", "boolean", "object", "array"]

/-- `Schema.validateType`.  An unrecognized (including missing) `type` throws
regardless of the value; a present (not undefined/null) value must have the
matching runtime kind (`Array.isArray` for `array`, `typeof` equality
otherwise).  The code's separate `type === undefined` branch is dead: an
undefined `type` is already rejected by the enum-membership check. -/
def validateType (value : Value) (type? : Option String) (key : String) : Except JsError Unit :=
  match type? with
  | none => Except.error (JsError.validationErr ("Invalid type for " ++ key))
  | some t =>
    if ¬ schemaTypes.contains t then
      Except.error (JsError.validationErr ("Invalid type for " ++ key))
    else
      match value with
      | vUndefined => Except.ok ()
      | vNull => Except.ok ()
      | v =>
        if t == "array" then
          if isArrayV v then Except.ok ()
          else Except.error (JsError.validationErr (key ++ " must be of type " ++ t ++ ", but got " ++ typeofV v))
        else
          if typeofV v == t then Except.ok ()
          else Except.error (JsError.validationErr (key ++ " must be of type " ++ t ++ ", but got " ++ typeofV v))

/-- The code's `error || defaultMsg` pattern: the custom message is used
unless it is absent or empty (falsy). -/
def chooseMsg (custom : Option String) (dflt : String) : String :=
  match custom with
  | some m => if m == "" then dflt else m
  | none => dflt

/-- `Schema.validateRequired`.  `required` given as a boolean or a
`[boolean, message]` pair; absence means the check passes.  (The runtime
`typeof isRequired !== 'boolean'` guard cannot fire at the modelled type.) -/
def validateRequired (value : Value) (required? : Option (Bool × Option String)) (key : String) :
    Except JsError Unit :=
  match required? with
  | none => Except.ok ()
  | some (isRequired, msg?) =>
    if ¬ isRequired then Except.ok ()
    else
      match value with
      | vUndefined => Except.error (JsError.validationErr (chooseMsg msg? (key ++ " is required")))
      | vNull => Except.error (JsError.validationErr (chooseMsg msg? (key ++ " is required")))
      | _ => Except.ok ()

/-- Sequencing of two checks: the second runs only when the first did not
throw. -/
def seqErr (a b : Except JsError Unit) : Except JsError Unit :=
  match a with
  | Except.error e => Except.error e
  | Except.ok _ => b

@[simp] theorem seqErr_ok (b : Except JsError Unit) : seqErr (Except.ok ()) b = b := rfl

@[simp] theorem seqErr_error (e : JsError) (b : Except JsError Unit) :
    seqErr (Except.error e) b = Except.error e := rfl

/-- `Schema.validateMinLength`: three checks in sequence — string character
count, array element count, then (for any remaining `typeof value ===
'object'`, which includes `null`, `Date`, `RegExp` and arrays again)
`Object.keys(value).length`.  Each is a strict `<` against the bound. -/
def validateMinLength (value : Value) (minLength? : Option (Int × Option String)) (key : String) :
    Except JsError Unit :=
  match minLength? with
  | none => Except.ok ()
  | some (len, msg?) =>
    seqErr
      (match value with
       | vStr s =>
         if (s.length : Int) < len then
           Except.error (JsError.validationErr (chooseMsg msg? (key ++ " must be at least " ++ toString len ++ " characters long")))
         else Except.ok ()
       | _ => Except.ok ())
      (seqErr
        (match value with
         | vArr es =>
           if (es.length : Int) < len then
             Except.error (JsError.validationErr (chooseMsg msg? (key ++ " must contain at least " ++ toString len ++ " elements")))
           else Except.ok ()
         | _ => Except.ok ())
        (if typeofV value == "object" then
           match objKeyCount value with
           | Except.error e => Except.error e
           | Except.ok n =>
             if n < len then
               Except.error (JsError.validationErr (chooseMsg msg? (key ++ " must contain at least " ++ toString len ++ " properties")))
             else Except.ok ()
         else Except.ok ()))

/-- `Schema.validateMaxLength`: as `validateMinLength` with `>`. -/
def validateMaxLength (value : Value) (maxLength? : Option (Int × Option String)) (key : String) :
    Except JsError Unit :=
  match maxLength? with
  | none => Except.ok ()
  | some (len, msg?) =>
    seqErr
      (match value with
       | vStr s =>
         if (s.length : Int) > len then
           Except.error (JsError.validationErr (chooseMsg msg? (key ++ " must be at most " ++ toString len ++ " characters long")))
         else Except.ok ()
       | _ => Except.ok ())
      (seqErr
        (match value with
         | vArr es =>
           if (es.length : Int) > len then
             Except.error (JsError.validationErr (chooseMsg msg? (key ++ " must contain at most " ++ toString len ++ " elements")))
           else Except.ok ()
         | _ => Except.ok ())
        (if typeofV value == "object" then
           match objKeyCount value with
           | Except.error e => Except.error e
           | Except.ok n =>
             if n > len then
               Except.error (JsError.validationErr (chooseMsg msg? (key ++ " must contain at most " ++ toString len ++ " properties")))
             else Except.ok ()
         else Except.ok ()))

/-- `Schema.validateCustom`: skipped when the value is undefined or no
predicate is configured; otherwise the predicate must return true. -/
def validateCustom (value : Value) (validateFn? : Option ((Value → Bool) × Option String)) (key : String) :
    Except JsError Unit :=
  match value, validateFn? with
  | vUndefined, _ => Except.ok ()
  | _, none => Except.ok ()
  | v, some (p, msg?) =>
    if p v then Except.ok ()
    else Except.error (JsError.validationErr (chooseMsg msg? (key ++ " failed custom validation")))

/-- `Schema.validateArrayTypes`: only applies to arrays with `arrayOf` set;
every element's `typeof` must equal `arrayOf`. -/
def validateArrayTypes (value : Value) (arrayOf? : Option String) (key : String) :
    Except JsError Unit :=
  match value, arrayOf? with
  | vArr es, some t =>
    if es.all (fun i => typeofV i == t) then Except.ok ()
    else Except.error (JsError.validationErr ("All elements in " ++ key ++ " must be of type " ++ t))
  | _, _ => Except.ok ()

/-- `Schema.stripData` applied to the `for (const key in data)` loop body:
the code deletes exactly the keys for which `schema[key] !== undefined`,
i.e. the keys that ARE defined in the schema (its own comment says the
opposite). -/
def stripFields : FieldList → SchemaFields → FieldList
  | fnil, _ => fnil
  | fcons k v tl, schema =>
    if (lookupSchema schema k).isSome then stripFields tl schema
    else fcons k v (stripFields tl schema)

/-- `Schema.stripData`: `for ... in` over a non-object iterates nothing, so
non-object working records are left unchanged (schema field names are never
array/string index keys). -/
def stripData : Value → SchemaFields → Value
  | vObj fs, schema => vObj (stripFields fs schema)
  | v, _ => v

/-! ## The recursive validator (`Schema.validate`) -/

/-- `ValidationOptions`: every flag optional, the whole object optional at the
call sites. -/
structure Options : Type where
  skipStrip? : Option Bool
  skipRequired? : Option Bool
  skipDefault? : Option Bool
  allowDotPaths? : Option Bool
deriving Repr

/-- Truthiness of `options && options.flag` for an optional options object. -/
def optFlag (opts : Option Options) (sel : Options → Option Bool) : Bool :=
  match opts with
  | none => false
  | some o => (sel o).getD false

/-- The default-application step (lines 511–516 together with
`Schema.setDefault`): when defaults are not skipped, the supplier is invoked
exactly when the current value is `undefined` and a supplier exists, and its
result is written back into the working record. -/
def setDefaultStep (value : Value) (df : Option (Unit → Value)) (data : Value) (key : String)
    (opts : Option Options) (path : List String) : Res (Value × Value) :=
  if ¬ optFlag opts (fun o => o.skipDefault?) then
    match value, df with
    | vUndefined, some f => do
      emit ⟨path ++ [key], Rule.rDefaultInvoked⟩
      let dv := f ()
      let d2 ← liftE (setProp data key dv)
      pure (dv, d2)
    | v, _ => pure (v, data)
  else pure (value, data)

/-- The required-check step (lines 519–521): evaluated unless skipped. -/
def requiredStep (value : Value) (r : Option (Bool × Option String)) (key : String)
    (opts : Option Options) (path : List String) : Res Unit :=
  if ¬ optFlag opts (fun o => o.skipRequired?) then do
    emit ⟨path ++ [key], Rule.rRequired⟩
    liftE (validateRequired value r key)
  else pure ()

/-- The transform step (lines 537–539 together with `Schema.doTransform`):
the transform runs exactly when the value is defined and a transform exists,
and its result is written back into the working record. -/
def transformStep (value : Value) (tf : Option (Value → Value)) (data : Value) (key : String)
    (path : List String) : Res (Value × Value) :=
  match value, tf with
  | vUndefined, _ => pure (value, data)
  | v, none => pure (v, data)
  | v, some f => do
    emit ⟨path ++ [key], Rule.rTransformInvoked⟩
    let tv := f v
    let d2 ← liftE (setProp data key tv)
    pure (tv, d2)

/-- Lines 509–539 of `Schema.validate`'s loop body: resolve the current value,
apply the default supplier, run the required / type / maxLength / minLength /
custom / array-element checks in that order, then apply the transform.
Returns the updated working record together with the field's current value
(the code's `value` local), which the nested recursion consumes. -/
def validateFieldCore (data : Value) (key : String)
    (type? : Option String)
    (required? : Option (Bool × Option String))
    (maxLength? : Option (Int × Option String))
    (minLength? : Option (Int × Option String))
    (validateFn? : Option ((Value → Bool) × Option String))
    (transformFn? : Option (Value → Value))
    (defaultFn? : Option (Unit → Value))
    (arrayOf? : Option String)
    (opts : Option Options) (path : List String) : Res (Value × Value) := do
  let value ← liftE (getProp data key)
  let (value, data) ← setDefaultStep value defaultFn? data key opts path
  let _ ← requiredStep value required? key opts path
  emit ⟨path ++ [key], Rule.rType⟩
  liftE (validateType value type? key)
  emit ⟨path ++ [key], Rule.rMaxLength⟩
  liftE (validateMaxLength value maxLength? key)
  emit ⟨path ++ [key], Rule.rMinLength⟩
  liftE (validateMinLength value minLength? key)
  emit ⟨path ++ [key], Rule.rCustom⟩
  liftE (validateCustom value validateFn? key)
  emit ⟨path ++ [key], Rule.rArrayOf⟩
  liftE (validateArrayTypes value arrayOf? key)
  let (value, data) ← transformStep value transformFn? data key path
  pure (data, value)

@[simp] theorem setDefaultStep_none (v : Value) (data : Value) (key : String)
    (o : Option Options) (p : List String) :
    setDefaultStep v none data key o p = pure (v, data) := by
  unfold setDefaultStep
  split
  · cases v <;> rfl
  · rfl

@[simp] theorem transformStep_none (v : Value) (data : Value) (key : String) (p : List String) :
    transformStep v none data key p = pure (v, data) := by
  cases v <;> rfl

@[simp] theorem transformStep_undefined (tf : Option (Value → Value)) (data : Value)
    (key : String) (p : List String) :
    transformStep vUndefined tf data key p = pure (vUndefined, data) := by
  cases tf <;> rfl

theorem requiredStep_res_ok (v : Value) (r : Option (Bool × Option String)) (key : String)
    (o : Option Options) (p : List String) (h : validateRequired v r key = Except.ok ()) :
    (requiredStep v r key o p).res = Except.ok () := by
  unfold requiredStep
  split <;> simp [h]

mutual
/-- The `for (const key in schema)` loop of `Schema.validate`. -/
def validateFields (data : Value) (fields : SchemaFields) (opts : Option Options)
    (path : List String) : Res Value :=
  match fields with
  | snil => pure data
  | scons k d tl => do
    let data2 ← validateField data k d opts path
    validateFields data2 tl opts path

/-- One iteration of the loop: the per-field pipeline, then — when a nested
schema is configured — the recursive `this.validate(value, nestedSchema,
options)` call (which re-runs the nest / strip / loop / flatten sequence on
the field's value with the same inherited options) and the write-back of its
result. -/
def validateField (data : Value) (key : String) (d : FieldDef) (opts : Option Options)
    (path : List String) : Res Value :=
  match d with
  | FieldDef.mk type? required? maxLength? minLength? validateFn? transformFn? defaultFn? arrayOf? schema? => do
    let (data2, value) ← validateFieldCore data key type? required? maxLength? minLength?
      validateFn? transformFn? defaultFn? arrayOf? opts path
    match schema? with
    | none => pure data2
    | some ns => do
      emit ⟨path ++ [key], Rule.rNested⟩
      let v1 ← liftE (if optFlag opts (fun o => o.allowDotPaths?) then nestData value else Except.ok value)
      let v2 := if ¬ optFlag opts (fun o => o.skipStrip?) then stripData v1 ns else v1
      let v3 ← validateFields v2 ns opts (path ++ [key])
      let v4 ← liftE (if optFlag opts (fun o => o.allowDotPaths?) then flattenTop v3 else Except.ok v3)
      liftE (setProp data2 key v4)
end

/-- `Schema.validate(data, schema, options)` (with the schema node passed
explicitly; the code's `schema ?? this.definition` merely fills in the root
node).  `path` is trace instrumentation only: the key path of the record
being validated, `[]` at the root. -/
def validate (data : Value) (schema : SchemaFields) (opts : Option Options)
    (path : List String) : Res Value := do
  let d1 ← liftE (if optFlag opts (fun o => o.allowDotPaths?) then nestData data else Except.ok data)
  let d2 := if ¬ optFlag opts (fun o => o.skipStrip?) then stripData d1 schema else d1
  let d3 ← validateFields d2 schema opts path
  liftE (if optFlag opts (fun o => o.allowDotPaths?) then flattenTop d3 else Except.ok d3)

/-! ## General helper lemmas about `Res` -/

@[simp] theorem Res.res_bind {α β : Type} (x : Res α) (f : α → Res β) :
    (bind x f).res = x.res.bind (fun a => (f a).res) := by
  cases x with
  | mk r t => cases r <;> rfl

@[simp] theorem Res.tr_bind {α β : Type} (x : Res α) (f : α → Res β) :
    (bind x f).tr = match x.res with
      | Except.error _ => x.tr
      | Except.ok a => x.tr ++ (f a).tr := by
  cases x with
  | mk r t => cases r <;> rfl

@[simp] theorem Res.res_pure {α : Type} (a : α) : (pure a : Res α).res = Except.ok a := rfl

@[simp] theorem Res.tr_pure {α : Type} (a : α) : (pure a : Res α).tr = [] := rfl

@[simp] theorem Res.res_emit (e : Event) : (emit e).res = Except.ok () := rfl

@[simp] theorem Res.tr_emit (e : Event) : (emit e).tr = [e] := rfl

@[simp] theorem Res.res_liftE {α : Type} (x : Except JsError α) : (liftE x).res = x := rfl

@[simp] theorem Res.tr_liftE {α : Type} (x : Except JsError α) : (liftE x).tr = [] := rfl

@[simp] theorem Res.bind_pure_left {α β : Type} (a : α) (f : α → Res β) :
    (bind (pure a : Res α) f) = f a := by
  show (⟨(f a).res, [] ++ (f a).tr⟩ : Res β) = f a
  simp

theorem Res.eta {α : Type} (x : Res α) : x = ⟨x.res, x.tr⟩ := rfl

/-! ## C1 / C2: the stripper bug -/

/-- Schema `{a: {type:'number'}}`. -/
def schemaOnlyA : SchemaFields :=
  scons "a" (FieldDef.mk (some "number") none none none none none none none none) snil

/-- C1 — the claim is that the strip step deletes exactly the keys with *no*
matching field definition.  Evaluating `stripData` at the record
`{a: 1, b: 2}` against the schema `{a: {type:'number'}}` shows the opposite:
the code's condition `schema[key] !== undefined` deletes the key `a`, which
IS defined in the schema, and keeps the unknown key `b` (the code contradicts
its own comment "remove data properties which are not defined in schema"). -/
theorem C1_stripData_deletes_schema_keys :
    stripData (vObj (fcons "a" (vNum 1) (fcons "b" (vNum 2) fnil))) schemaOnlyA
      = vObj (fcons "b" (vNum 2) fnil) := rfl

/-- Schema `{name:{type:'string', required:true}, age:{type:'number'}}`. -/
def schemaC2 : SchemaFields :=
  scons "name" (FieldDef.mk (some "string") (some (true, none)) none none none none none none none)
    (scons "age" (FieldDef.mk (some "number") none none none none none none none none) snil)

/-- C2 — the claim is that with default options `validate({name:"Ann"})`
returns `{name:"Ann"}` unchanged.  Evaluating the code: the strip step
(enabled by default) deletes `name` because it IS defined in the schema, and
the required check then fails, so the call raises "name is required" instead
of succeeding; `validate({})` also raises "name is required" (the only part
of the scenario the code satisfies). -/
theorem C2_validate_scenario_raises :
    (validate (vObj (fcons "name" (vStr "Ann") fnil)) schemaC2 none []).res
        = Except.error (JsError.validationErr "name is required")
      ∧ (validate (vObj fnil) schemaC2 none []).res
        = Except.error (JsError.validationErr "name is required") :=
  ⟨rfl, rfl⟩

/-! ## C6: kinds affected by the length checks -/

/-- C6 counterexample — the claim says every value that is not a string, an
array or a plain object is *silently exempt* from the length checks.  `null`
is such a value, yet `validateMinLength` on `null` with a bound set throws a
TypeError (`typeof null === 'object'`, and `Object.keys(null)` throws), so
the check neither passes silently nor is `null` exempt. -/
theorem C6_null_not_exempt :
    validateMinLength vNull (some (1, none)) "k"
      = Except.error (JsError.typeError "Cannot convert undefined or null to object") := rfl

/-- C6 as amended: the length checks apply to strings (character count,
inclusive bounds), arrays (element count, inclusive bounds) and plain objects
(own-key count, inclusive bounds); `undefined`, numbers and booleans are
silently exempt; but the remaining `typeof ... === 'object'` kinds are NOT
exempt: `null` throws a TypeError whenever a bound is set, and `Date` /
`RegExp` values are measured by their own-key count `0`. -/
theorem C6_length_checks_amended :
    (∀ s : String, ∀ n : Int, ∀ m : Option String, ∀ k : String,
        (validateMinLength (vStr s) (some (n, m)) k = Except.ok ()) ↔ n ≤ (s.length : Int))
    ∧ (∀ s : String, ∀ n : Int, ∀ m : Option String, ∀ k : String,
        (validateMaxLength (vStr s) (some (n, m)) k = Except.ok ()) ↔ (s.length : Int) ≤ n)
    ∧ (∀ es : List Value, ∀ n : Int, ∀ m : Option String, ∀ k : String,
        (validateMinLength (vArr es) (some (n, m)) k = Except.ok ()) ↔ n ≤ (es.length : Int))
    ∧ (∀ es : List Value, ∀ n : Int, ∀ m : Option String, ∀ k : String,
        (validateMaxLength (vArr es) (some (n, m)) k = Except.ok ()) ↔ (es.length : Int) ≤ n)
    ∧ (∀ fs : FieldList, ∀ n : Int, ∀ m : Option String, ∀ k : String,
        (validateMinLength (vObj fs) (some (n, m)) k = Except.ok ()) ↔ n ≤ (lenF fs : Int))
    ∧ (∀ fs : FieldList, ∀ n : Int, ∀ m : Option String, ∀ k : String,
        (validateMaxLength (vObj fs) (some (n, m)) k = Except.ok ()) ↔ (lenF fs : Int) ≤ n)
    ∧ (∀ n : Int, ∀ m : Option String, ∀ k : String,
        validateMinLength vUndefined (some (n, m)) k = Except.ok ()
          ∧ validateMaxLength vUndefined (some (n, m)) k = Except.ok ())
    ∧ (∀ b : Bool, ∀ n : Int, ∀ m : Option String, ∀ k : String,
        validateMinLength (vBool b) (some (n, m)) k = Except.ok ()
          ∧ validateMaxLength (vBool b) (some (n, m)) k = Except.ok ())
    ∧ (∀ i : Int, ∀ n : Int, ∀ m : Option String, ∀ k : String,
        validateMinLength (vNum i) (some (n, m)) k = Except.ok ()
          ∧ validateMaxLength (vNum i) (some (n, m)) k = Except.ok ())
    ∧ (∀ n : Int, ∀ m : Option String, ∀ k : String,
        validateMinLength vNull (some (n, m)) k
            = Except.error (JsError.typeError "Cannot convert undefined or null to object")
          ∧ validateMaxLength vNull (some (n, m)) k
            = Except.error (JsError.typeError "Cannot convert undefined or null to object"))
    ∧ (∀ n : Int, ∀ m : Option String, ∀ k : String,
        ((validateMinLength vDate (some (n, m)) k = Except.ok ()) ↔ n ≤ 0)
          ∧ ((validateMaxLength vDate (some (n, m)) k = Except.ok ()) ↔ 0 ≤ n)
          ∧ ((validateMinLength vRegExp (some (n, m)) k = Except.ok ()) ↔ n ≤ 0)
          ∧ ((validateMaxLength vRegExp (some (n, m)) k = Except.ok ()) ↔ 0 ≤ n)) := by
  refine ⟨?_, ?_, ?_, ?_, ?_, ?_, ?_, ?_, ?_, ?_, ?_⟩
  · intro s n m k
    by_cases h : (s.length : Int) < n <;>
      simp [validateMinLength, typeofV, isArrayV, objKeyCount, h] <;> omega
  · intro s n m k
    by_cases h : (s.length : Int) > n <;>
      simp [validateMaxLength, typeofV, isArrayV, objKeyCount, h] <;> omega
  · intro es n m k
    by_cases h : (es.length : Int) < n <;>
      simp [validateMinLength, typeofV, isArrayV, objKeyCount, h] <;> omega
  · intro es n m k
    by_cases h : (es.length : Int) > n <;>
      simp [validateMaxLength, typeofV, isArrayV, objKeyCount, h] <;> omega
  · intro fs n m k
    by_cases h : (lenF fs : Int) < n <;>
      simp [validateMinLength, typeofV, isArrayV, objKeyCount, h] <;> omega
  · intro fs n m k
    by_cases h : (lenF fs : Int) > n <;>
      simp [validateMaxLength, typeofV, isArrayV, objKeyCount, h] <;> omega
  · intro n m k
    exact ⟨rfl, rfl⟩
  · intro b n m k
    exact ⟨rfl, rfl⟩
  · intro i n m k
    exact ⟨rfl, rfl⟩
  · intro n m k
    exact ⟨rfl, rfl⟩
  · intro n m k
    refine ⟨?_, ?_, ?_, ?_⟩
    · by_cases h : (0 : Int) < n <;>
        simp [validateMinLength, typeofV, isArrayV, objKeyCount, h] <;> omega
    · by_cases h : (0 : Int) > n <;>
        simp [validateMaxLength, typeofV, isArrayV, objKeyCount, h] <;> omega
    · by_cases h : (0 : Int) < n <;>
        simp [validateMinLength, typeofV, isArrayV, objKeyCount, h] <;> omega
    · by_cases h : (0 : Int) > n <;>
        simp [validateMaxLength, typeofV, isArrayV, objKeyCount, h] <;> omega

/-! ## Infrastructure for reasoning about the validator loop -/

/-- Concatenation of schema nodes (used to speak about a field's position in
declaration order). -/
def appendS : SchemaFields → SchemaFields → SchemaFields
  | snil, gs => gs
  | scons k d tl, gs => scons k d (appendS tl gs)

@[simp] theorem validateFields_nil (data : Value) (o : Option Options) (p : List String) :
    validateFields data snil o p = pure data := rfl

theorem validateFields_cons (data : Value) (k : String) (d : FieldDef) (tl : SchemaFields)
    (o : Option Options) (p : List String) :
    validateFields data (scons k d tl) o p
      = bind (validateField data k d o p) (fun d2 => validateFields d2 tl o p) := rfl

theorem Res.bind_assoc {α β γ : Type} (x : Res α) (f : α → Res β) (g : β → Res γ) :
    bind (bind x f) g = bind x (fun a => bind (f a) g) := by
  cases x with
  | mk r t =>
    cases r with
    | error e => rfl
    | ok a =>
      cases hf : f a with
      | mk rf tf =>
        cases rf with
        | error e => simp [hf]
        | ok b => simp [hf, List.append_assoc]

/-- A structural induction principle for schema nodes alone (the generic
mutual eliminator carries a second motive for `FieldDef` which none of the
list-shaped arguments below need). -/
def SchemaFields.indOn {motive : SchemaFields → Prop} (s : SchemaFields)
    (h1 : motive snil) (h2 : ∀ k d tl, motive tl → motive (scons k d tl)) : motive s :=
  match s with
  | snil => h1
  | scons k d tl => h2 k d tl (SchemaFields.indOn tl h1 h2)

/-- The loop over a concatenation is the loop over the first part followed by
the loop over the second: the validator walks fields strictly in declaration
order, threading the working record. -/
theorem validateFields_append (fs1 fs2 : SchemaFields) (o : Option Options) (p : List String) :
    ∀ data : Value, validateFields data (appendS fs1 fs2) o p
      = bind (validateFields data fs1 o p) (fun d2 => validateFields d2 fs2 o p) := by
  refine SchemaFields.indOn (motive := fun s => ∀ data : Value,
    validateFields data (appendS s fs2) o p
      = bind (validateFields data s o p) (fun d2 => validateFields d2 fs2 o p)) fs1 ?_ ?_
  · intro data
    simp [appendS]
  · intro k d tl ih data
    show validateFields data (scons k d (appendS tl fs2)) o p = _
    rw [validateFields_cons, validateFields_cons, Res.bind_assoc]
    exact congrArg _ (funext fun d2 => ih d2)

/-! ## C9: unrecognized `type` is fatal for every input -/

/-- Whether an `Except` outcome is an error. -/
def isErr {α : Type} : Except JsError α → Bool
  | Except.error _ => true
  | Except.ok _ => false

@[simp] theorem isErr_error {α : Type} (e : JsError) : isErr (Except.error e : Except JsError α) = true := rfl

@[simp] theorem isErr_ok {α : Type} (a : α) : isErr (Except.ok a : Except JsError α) = false := rfl

/-- The enum-membership test `Object.values(SchemaTypes).includes(type)`. -/
def isValidTypeB : Option String → Bool
  | some t => schemaTypes.contains t
  | none => false

theorem validateType_invalid (v : Value) (t? : Option String) (k : String)
    (h : isValidTypeB t? = false) :
    validateType v t? k = Except.error (JsError.validationErr ("Invalid type for " ++ k)) := by
  cases t? with
  | none => rfl
  | some t =>
    simp only [isValidTypeB] at h
    have h2 : t ∉ schemaTypes := by simpa using h
    simp [validateType, h2]

/-- With an unrecognized (or missing) declared `type`, the per-field pipeline
can never succeed: whatever the data, either an earlier step already threw,
or `validateType` throws its schema-configuration error. -/
theorem validateFieldCore_invalid_type (data : Value) (key : String) (t? : Option String)
    (r? : Option (Bool × Option String)) (mx mn : Option (Int × Option String))
    (vf : Option ((Value → Bool) × Option String)) (tf : Option (Value → Value))
    (df : Option (Unit → Value)) (ao : Option String)
    (opts : Option Options) (path : List String) (h : isValidTypeB t? = false) :
    isErr (validateFieldCore data key t? r? mx mn vf tf df ao opts path).res = true := by
  simp only [validateFieldCore, Res.res_bind, Res.res_liftE, Res.res_emit, Res.res_pure]
  cases hg : getProp data key with
  | error e => simp [Except.bind]
  | ok v =>
    simp only [Except.bind]
    cases hd : (setDefaultStep v df data key opts path).res with
    | error e => simp
    | ok vd =>
      obtain ⟨v2, d2⟩ := vd
      simp only []
      cases hre : (requiredStep v2 r? key opts path).res with
      | error e => simp
      | ok u =>
        rw [validateType_invalid v2 t? key h]
        simp [Except.bind]

/-- If the per-field pipeline throws, the whole field step throws the same
error (the nested-schema recursion is only reached on success). -/
theorem validateField_core_error (data : Value) (key : String)
    (t : Option String) (r : Option (Bool × Option String)) (mx mn : Option (Int × Option String))
    (vf : Option ((Value → Bool) × Option String)) (tf : Option (Value → Value))
    (df : Option (Unit → Value)) (ao : Option String) (s? : Option SchemaFields)
    (o : Option Options) (p : List String) (e : JsError)
    (h : (validateFieldCore data key t r mx mn vf tf df ao o p).res = Except.error e) :
    (validateField data key (FieldDef.mk t r mx mn vf tf df ao s?) o p).res = Except.error e := by
  rw [validateField.eq_1, Res.res_bind, h]
  rfl

/-- C9 — a schema containing any field whose declared `type` is not a member
of the supported enum (including a missing `type`) makes `validate` fail for
every input record and every options object: an earlier field may throw its
own error first, but no run can succeed, because reaching the malformed field
always throws (`validateType` rejects the declared type before ever looking
at the value). -/
theorem C9_invalid_type_fatal (pre post : SchemaFields) (k : String) (d : FieldDef)
    (data : Value) (opts : Option Options) (path : List String)
    (h : isValidTypeB d.type? = false) :
    isErr (validateFields data (appendS pre (scons k d post)) opts path).res = true := by
  rw [validateFields_append]
  cases h1 : (validateFields data pre opts path).res with
  | error e => simp [Res.res_bind, h1, Except.bind]
  | ok data2 =>
    simp only [Res.res_bind, h1, Except.bind]
    rw [validateFields_cons]
    cases d with
    | mk t r mx mn vf tf df ao s? =>
      have hc := validateFieldCore_invalid_type data2 k t r mx mn vf tf df ao opts path
        (by simpa [FieldDef.type?] using h)
      cases h2 : (validateFieldCore data2 k t r mx mn vf tf df ao opts path).res with
      | error e =>
        have h3 := validateField_core_error data2 k t r mx mn vf tf df ao s? opts path e h2
        simp [Res.res_bind, h3, Except.bind]
      | ok dv =>
        rw [h2] at hc
        simp [isErr] at hc

/-- C9 witness: the schema `{a: {type:'strnig'}}` (misspelt type) rejects the
record `{a: "x"}` — and would reject any other record. -/
theorem C9_invalid_type_fatal_witness :
    isValidTypeB (FieldDef.mk (some "strnig") none none none none none none none none).type? = false
      ∧ isErr (validateFields (vObj (fcons "a" (vStr "x") fnil))
          (appendS snil (scons "a" (FieldDef.mk (some "strnig") none none none none none none none none) snil))
          none []).res = true :=
  ⟨rfl, C9_invalid_type_fatal snil snil "a" _ (vObj (fcons "a" (vStr "x") fnil)) none [] rfl⟩

/-! ## C10: absent nested-object data crashes the recursion -/

/-- The `required` rule cannot fire: absent or `[false, ...]` / `false`. -/
def notRequiredB : Option (Bool × Option String) → Bool
  | none => true
  | some (b, _) => !b

theorem validateRequired_not_required (v : Value) (r : Option (Bool × Option String))
    (key : String) (h : notRequiredB r = true) : validateRequired v r key = Except.ok () := by
  match r with
  | none => rfl
  | some (b, m) =>
    simp only [notRequiredB, Bool.not_eq_true'] at h
    simp [validateRequired, h]

theorem validateType_undefined (t? : Option String) (k : String) (h : isValidTypeB t? = true) :
    validateType vUndefined t? k = Except.ok () := by
  match t? with
  | none => simp [isValidTypeB] at h
  | some t =>
    simp only [isValidTypeB] at h
    have h2 : t ∈ schemaTypes := by simpa using h
    simp [validateType, h2]

theorem validateMinLength_undefined (b : Option (Int × Option String)) (k : String) :
    validateMinLength vUndefined b k = Except.ok () := by
  rcases b with _ | ⟨len, msg⟩ <;> rfl

theorem validateMaxLength_undefined (b : Option (Int × Option String)) (k : String) :
    validateMaxLength vUndefined b k = Except.ok () := by
  rcases b with _ | ⟨len, msg⟩ <;> rfl

theorem validateCustom_undefined (vf : Option ((Value → Bool) × Option String)) (k : String) :
    validateCustom vUndefined vf k = Except.ok () := by
  rcases vf with _ | ⟨p, m⟩ <;> rfl

theorem validateArrayTypes_undefined (ao : Option String) (k : String) :
    validateArrayTypes vUndefined ao k = Except.ok () := rfl

/-- On an absent (`undefined`) field with no default supplier, a non-firing
`required` rule and a recognized declared type, the whole per-field pipeline
is a no-op: every check passes vacuously and neither the default nor the
transform writes anything back. -/
theorem validateFieldCore_undefined_noop (data : Value) (key : String)
    (t : Option String) (r : Option (Bool × Option String)) (mx mn : Option (Int × Option String))
    (vf : Option ((Value → Bool) × Option String)) (tf : Option (Value → Value))
    (ao : Option String) (opts : Option Options) (path : List String)
    (hg : getProp data key = Except.ok vUndefined)
    (hr : notRequiredB r = true) (ht : isValidTypeB t = true) :
    (validateFieldCore data key t r mx mn vf tf none ao opts path).res
      = Except.ok (data, vUndefined) := by
  have h1 := requiredStep_res_ok vUndefined r key opts path
    (validateRequired_not_required vUndefined r key hr)
  have h2 := validateType_undefined t key ht
  simp [validateFieldCore, hg, h1, h2, validateMinLength_undefined, validateMaxLength_undefined,
    validateCustom_undefined, validateArrayTypes_undefined, Except.bind]

@[simp] theorem stripData_undefined (s : SchemaFields) : stripData vUndefined s = vUndefined := rfl

/-- Recursing into an absent field: the first thing the inner loop does is
read `dataToCheck[key]` with `dataToCheck === undefined`, a runtime
TypeError. -/
theorem validateFields_undefined_head (k2 : String) (d2 : FieldDef) (tl : SchemaFields)
    (opts : Option Options) (p2 : List String) :
    (validateFields vUndefined (scons k2 d2 tl) opts p2).res
      = Except.error (JsError.typeError ("Cannot read properties of undefined (reading '" ++ k2 ++ "')")) := by
  rw [validateFields_cons, Res.res_bind]
  cases d2 with
  | mk t r mx mn vf tf df ao s? =>
    have hcore : (validateFieldCore vUndefined k2 t r mx mn vf tf df ao opts p2).res
        = Except.error (JsError.typeError ("Cannot read properties of undefined (reading '" ++ k2 ++ "')")) := rfl
    have h := validateField_core_error vUndefined k2 t r mx mn vf tf df ao s? opts p2 _ hcore
    rw [h]
    rfl

/-- C10 — a field declared with a non-empty nested schema and no default
supplier, not marked required, of a recognized declared type: when the field
is absent (`undefined`) from the (stripped) input and dot-path conversion is
off, `validate` throws a runtime TypeError reading a property of `undefined`
inside the recursive call — it neither succeeds nor raises a field-level
validation error.  (`hpre` says the fields declared before it validated
successfully, producing working record `data2`.) -/
theorem C10_nested_undefined_crash (pre post : SchemaFields) (k k2 : String)
    (t : Option String) (r : Option (Bool × Option String)) (mx mn : Option (Int × Option String))
    (vf : Option ((Value → Bool) × Option String)) (tf : Option (Value → Value))
    (ao : Option String) (d2 : FieldDef) (tl : SchemaFields)
    (data data2 : Value) (opts : Option Options) (path : List String)
    (hdot : optFlag opts (fun o => o.allowDotPaths?) = false)
    (hpre : (validateFields (if ¬ optFlag opts (fun o => o.skipStrip?)
        then stripData data (appendS pre (scons k
          (FieldDef.mk t r mx mn vf tf none ao (some (scons k2 d2 tl))) post))
        else data) pre opts path).res = Except.ok data2)
    (hg : getProp data2 k = Except.ok vUndefined)
    (hr : notRequiredB r = true) (ht : isValidTypeB t = true) :
    (validate data (appendS pre (scons k
        (FieldDef.mk t r mx mn vf tf none ao (some (scons k2 d2 tl))) post)) opts path).res
      = Except.error (JsError.typeError ("Cannot read properties of undefined (reading '" ++ k2 ++ "')")) := by
  have hcore := validateFieldCore_undefined_noop data2 k t r mx mn vf tf ao opts path hg hr ht
  simp only [validate, hdot, Bool.false_eq_true, if_false, Res.res_bind, Res.res_liftE,
    Except.bind]
  rw [validateFields_append, Res.res_bind]
  simp only [hpre, Except.bind]
  rw [validateFields_cons, Res.res_bind]
  rw [validateField.eq_1, Res.res_bind, hcore]
  simp only [Except.bind, hdot, Bool.false_eq_true, if_false, Res.res_bind, Res.res_liftE,
    Res.res_emit, Res.res_pure, stripData_undefined, ite_self]
  rw [validateFields_undefined_head]

/-- C10 witness: schema `{a: {type:'object', schema:{b:{type:'number'}}}}`,
input `{}`, default options — the call crashes with a TypeError instead of
succeeding or raising a validation error. -/
theorem C10_nested_undefined_crash_witness :
    (validate (vObj fnil) (appendS snil (scons "a"
        (FieldDef.mk (some "object") none none none none none none none
          (some (scons "b" (FieldDef.mk (some "number") none none none none none none none none) snil)))
        snil)) none []).res
      = Except.error (JsError.typeError "Cannot read properties of undefined (reading 'b')") :=
  C10_nested_undefined_crash snil snil "a" "b" (some "object") none none none none none none
    (FieldDef.mk (some "number") none none none none none none none none) snil
    (vObj fnil) (vObj fnil) none [] rfl rfl rfl rfl rfl

/-! ## Trace membership machinery (for invocation-counting claims) -/

theorem Res.mem_tr_bind {α β : Type} {x : Res α} {f : α → Res β} {e : Event}
    (he : e ∈ (bind x f).tr) : e ∈ x.tr ∨ ∃ a, x.res = Except.ok a ∧ e ∈ (f a).tr := by
  cases x with
  | mk r t =>
    cases r with
    | error er => exact Or.inl he
    | ok a =>
      rw [Res.bind_ok] at he
      rcases List.mem_append.mp he with h | h
      · exact Or.inl h
      · exact Or.inr ⟨a, rfl, h⟩

theorem Res.not_mem_tr_liftE {α : Type} {x : Except JsError α} {e : Event} :
    e ∈ (liftE x).tr → False := by
  intro h
  simp [liftE] at h

theorem Res.mem_tr_emit {ev e : Event} (h : e ∈ (emit ev).tr) : e = ev := by
  simpa [emit] using h

theorem Res.not_mem_tr_pure {α : Type} {a : α} {e : Event} : e ∈ (pure a : Res α).tr → False := by
  intro h
  simp at h

/-- Events of the default-application step: only the supplier-invocation
event, and only when a supplier is configured. -/
theorem defaultStep_tr_mem {value : Value} {df : Option (Unit → Value)} {data : Value}
    {key : String} {o : Option Options} {p : List String} {e : Event}
    (he : e ∈ (setDefaultStep value df data key o p).tr) :
    e = ⟨p ++ [key], Rule.rDefaultInvoked⟩ ∧ df ≠ none := by
  unfold setDefaultStep at he
  split at he
  · split at he
    · rcases Res.mem_tr_bind he with h | ⟨a, _, h⟩
      · exact ⟨Res.mem_tr_emit h, by simp⟩
      · rcases Res.mem_tr_bind h with h2 | ⟨b, _, h2⟩
        · exact absurd h2 Res.not_mem_tr_liftE
        · exact absurd h2 Res.not_mem_tr_pure
    · exact absurd he Res.not_mem_tr_pure
  · exact absurd he Res.not_mem_tr_pure

/-- Events of the required step: only the `required` evaluation event. -/
theorem requiredStep_tr_mem {value : Value} {r : Option (Bool × Option String)}
    {key : String} {o : Option Options} {p : List String} {e : Event}
    (he : e ∈ (requiredStep value r key o p).tr) :
    e = ⟨p ++ [key], Rule.rRequired⟩ := by
  unfold requiredStep at he
  split at he
  · rcases Res.mem_tr_bind he with h | ⟨a, _, h⟩
    · exact Res.mem_tr_emit h
    · exact absurd h Res.not_mem_tr_liftE
  · exact absurd he Res.not_mem_tr_pure

/-- Events of the transform step: only the transform-invocation event, and
only when a transform is configured. -/
theorem transformStep_tr_mem {value : Value} {tf : Option (Value → Value)} {data : Value}
    {key : String} {p : List String} {e : Event}
    (he : e ∈ (transformStep value tf data key p).tr) :
    e = ⟨p ++ [key], Rule.rTransformInvoked⟩ ∧ tf ≠ none := by
  unfold transformStep at he
  split at he
  · exact absurd he Res.not_mem_tr_pure
  · exact absurd he Res.not_mem_tr_pure
  · rcases Res.mem_tr_bind he with h | ⟨a, _, h⟩
    · refine ⟨Res.mem_tr_emit h, by simp⟩
    · rcases Res.mem_tr_bind h with h2 | ⟨b, _, h2⟩
      · exact absurd h2 Res.not_mem_tr_liftE
      · exact absurd h2 Res.not_mem_tr_pure

/-- Every event the per-field pipeline emits is tagged with this field's key
path; the supplier-invocation and transform-invocation events can only occur
when the corresponding function is configured; and the pipeline never emits a
recursion event. -/
theorem validateFieldCore_tr_mem (data : Value) (key : String)
    (t : Option String) (r : Option (Bool × Option String)) (mx mn : Option (Int × Option String))
    (vf : Option ((Value → Bool) × Option String)) (tf : Option (Value → Value))
    (df : Option (Unit → Value)) (ao : Option String)
    (o : Option Options) (p : List String) :
    ∀ e ∈ (validateFieldCore data key t r mx mn vf tf df ao o p).tr,
      e.path = p ++ [key] ∧ e.rule ≠ Rule.rNested
        ∧ (e.rule = Rule.rDefaultInvoked → df ≠ none)
        ∧ (e.rule = Rule.rTransformInvoked → tf ≠ none) := by
  intro e he
  simp only [validateFieldCore] at he
  rcases Res.mem_tr_bind he with h | ⟨value, _, he⟩
  · exact absurd h Res.not_mem_tr_liftE
  rcases Res.mem_tr_bind he with h | ⟨vd, _, he⟩
  · obtain ⟨rfl, hdf⟩ := defaultStep_tr_mem h
    exact ⟨rfl, by simp, fun _ => hdf, by simp⟩
  obtain ⟨v2, d2⟩ := vd
  rcases Res.mem_tr_bind he with h | ⟨u1, _, he⟩
  · obtain rfl := requiredStep_tr_mem h
    exact ⟨rfl, by simp, by simp, by simp⟩
  rcases Res.mem_tr_bind he with h | ⟨u2, _, he⟩
  · obtain rfl := Res.mem_tr_emit h
    exact ⟨rfl, by simp, by simp, by simp⟩
  rcases Res.mem_tr_bind he with h | ⟨u3, _, he⟩
  · exact absurd h Res.not_mem_tr_liftE
  rcases Res.mem_tr_bind he with h | ⟨u4, _, he⟩
  · obtain rfl := Res.mem_tr_emit h
    exact ⟨rfl, by simp, by simp, by simp⟩
  rcases Res.mem_tr_bind he with h | ⟨u5, _, he⟩
  · exact absurd h Res.not_mem_tr_liftE
  rcases Res.mem_tr_bind he with h | ⟨u6, _, he⟩
  · obtain rfl := Res.mem_tr_emit h
    exact ⟨rfl, by simp, by simp, by simp⟩
  rcases Res.mem_tr_bind he with h | ⟨u7, _, he⟩
  · exact absurd h Res.not_mem_tr_liftE
  rcases Res.mem_tr_bind he with h | ⟨u8, _, he⟩
  · obtain rfl := Res.mem_tr_emit h
    exact ⟨rfl, by simp, by simp, by simp⟩
  rcases Res.mem_tr_bind he with h | ⟨u9, _, he⟩
  · exact absurd h Res.not_mem_tr_liftE
  rcases Res.mem_tr_bind he with h | ⟨u10, _, he⟩
  · obtain rfl := Res.mem_tr_emit h
    exact ⟨rfl, by simp, by simp, by simp⟩
  rcases Res.mem_tr_bind he with h | ⟨u11, _, he⟩
  · exact absurd h Res.not_mem_tr_liftE
  rcases Res.mem_tr_bind he with h | ⟨vd2, _, he⟩
  · obtain ⟨rfl, htf⟩ := transformStep_tr_mem h
    exact ⟨rfl, by simp, by simp, fun _ => htf⟩
  exact absurd he Res.not_mem_tr_pure

theorem sizeOf_scons_d (k : String) (d : FieldDef) (tl : SchemaFields) :
    sizeOf d < sizeOf (scons k d tl) := by
  simp only [SchemaFields.scons.sizeOf_spec]
  omega

theorem sizeOf_scons_tl (k : String) (d : FieldDef) (tl : SchemaFields) :
    sizeOf tl < sizeOf (scons k d tl) := by
  simp only [SchemaFields.scons.sizeOf_spec]
  omega

theorem sizeOf_mk_schema (t : Option String) (r : Option (Bool × Option String))
    (mx mn : Option (Int × Option String)) (vf : Option ((Value → Bool) × Option String))
    (tf : Option (Value → Value)) (df : Option (Unit → Value)) (ao : Option String)
    (ns : SchemaFields) :
    sizeOf ns < sizeOf (FieldDef.mk t r mx mn vf tf df ao (some ns)) := by
  simp only [FieldDef.mk.sizeOf_spec]
  have : sizeOf ns < sizeOf (some ns) := by
    simp only [Option.some.sizeOf_spec]
    omega
  omega

/-- Every event emitted while validating a record at key path `p` belongs to
a field at or below `p`: its path is strictly longer than `p`.  (Joint strong
induction over the loop and the per-field step.) -/
theorem tr_path_grows (n : Nat) :
    (∀ fields : SchemaFields, sizeOf fields < n → ∀ data o p, ∀ e ∈ (validateFields data fields o p).tr,
      p.length < e.path.length)
    ∧ (∀ d : FieldDef, sizeOf d < n → ∀ data key o p, ∀ e ∈ (validateField data key d o p).tr,
      p.length < e.path.length) := by
  induction n using Nat.strong_induction_on with
  | _ n ih =>
    constructor
    · intro fields hsz data o p e he
      cases fields with
      | snil =>
        rw [validateFields_nil] at he
        exact absurd he Res.not_mem_tr_pure
      | scons k d tl =>
        rw [validateFields_cons] at he
        rcases Res.mem_tr_bind he with h | ⟨d2, _, he⟩
        · exact (ih (sizeOf (scons k d tl)) hsz).2 d (sizeOf_scons_d k d tl) data k o p e h
        · exact (ih (sizeOf (scons k d tl)) hsz).1 tl (sizeOf_scons_tl k d tl) d2 o p e he
    · intro d hsz data key o p e he
      cases d with
      | mk t r mx mn vf tf df ao s? =>
        rw [validateField.eq_1] at he
        rcases Res.mem_tr_bind he with h | ⟨dv, _, he⟩
        · have hp := (validateFieldCore_tr_mem data key t r mx mn vf tf df ao o p e h).1
          rw [hp]
          simp
        · obtain ⟨d2, value⟩ := dv
          cases s? with
          | none => exact absurd he Res.not_mem_tr_pure
          | some ns =>
            rcases Res.mem_tr_bind he with h | ⟨u1, _, he⟩
            · obtain rfl := Res.mem_tr_emit h
              simp
            rcases Res.mem_tr_bind he with h | ⟨v1, _, he⟩
            · exact absurd h Res.not_mem_tr_liftE
            rcases Res.mem_tr_bind he with h | ⟨v3, _, he⟩
            · have hlong := (ih (sizeOf (FieldDef.mk t r mx mn vf tf df ao (some ns))) hsz).1 ns
                (sizeOf_mk_schema t r mx mn vf tf df ao ns) _ o (p ++ [key]) e h
              have : (p ++ [key]).length = p.length + 1 := by simp
              omega
            rcases Res.mem_tr_bind he with h | ⟨v4, _, he⟩
            · exact absurd h Res.not_mem_tr_liftE
            exact absurd he Res.not_mem_tr_liftE

/-- Number of trace events for the field at key path `p` with rule `r`. -/
def countEv (tr : List Event) (p : List String) (r : Rule) : Nat :=
  tr.countP (fun e => decide (e.path = p ∧ e.rule = r))

/-- A structural induction principle for object field lists alone. -/
def FieldList.indOn {motive : FieldList → Prop} (s : FieldList) (h1 : motive fnil)
    (h2 : ∀ k v tl, motive tl → motive (fcons k v tl)) : motive s :=
  match s with
  | fnil => h1
  | fcons k v tl => h2 k v tl (FieldList.indOn tl h1 h2)

theorem lookupF_setField_self (key : String) (w : Value) :
    ∀ fs : FieldList, lookupF (setField fs key w) key = some w := by
  intro fs
  refine FieldList.indOn (motive := fun fs => lookupF (setField fs key w) key = some w) fs ?_ ?_
  · simp [setField, lookupF]
  · intro k v tl ih
    by_cases h : k == key
    · simp [setField, lookupF, h]
    · simp only [setField, h, Bool.false_eq_true, if_false, lookupF]
      exact ih

/-- A run of a field definition that carries no default supplier records no
supplier invocation for that field (inner fields of a nested schema live at
strictly longer key paths). -/
theorem countEv_default_zero (data : Value) (key : String) (d : FieldDef)
    (o : Option Options) (p : List String) (hdf : d.defaultFn? = none) :
    countEv (validateField data key d o p).tr (p ++ [key]) Rule.rDefaultInvoked = 0 := by
  rw [countEv, List.countP_eq_zero]
  intro e he
  simp only [decide_eq_true_eq]
  rintro ⟨hpath, hrule⟩
  cases d with
  | mk t r mx mn vf tf df ao s? =>
    simp only [FieldDef.defaultFn?] at hdf
    subst hdf
    rw [validateField.eq_1] at he
    rcases Res.mem_tr_bind he with h | ⟨dv, _, he⟩
    · exact ((validateFieldCore_tr_mem data key t r mx mn vf tf none ao o p e h).2.2.1 hrule) rfl
    · obtain ⟨d2, value⟩ := dv
      cases s? with
      | none => exact absurd he Res.not_mem_tr_pure
      | some ns =>
        rcases Res.mem_tr_bind he with h | ⟨u1, _, he⟩
        · obtain rfl := Res.mem_tr_emit h
          simp at hrule
        rcases Res.mem_tr_bind he with h | ⟨v1, _, he⟩
        · exact absurd h Res.not_mem_tr_liftE
        rcases Res.mem_tr_bind he with h | ⟨v3, _, he⟩
        · have hlong := (tr_path_grows (sizeOf ns + 1)).1 ns (Nat.lt_succ_self _) _ o (p ++ [key]) e h
          rw [hpath] at hlong
          exact absurd hlong (lt_irrefl _)
        rcases Res.mem_tr_bind he with h | ⟨v4, _, he⟩
        · exact absurd h Res.not_mem_tr_liftE
        exact absurd he Res.not_mem_tr_liftE

/-- On a defined (non-`undefined`) value the default step is a no-op,
whatever supplier is configured. -/
theorem setDefaultStep_defined (v : Value) (hv : v ≠ vUndefined) (df : Option (Unit → Value))
    (data : Value) (key : String) (o : Option Options) (p : List String) :
    setDefaultStep v df data key o p = pure (v, data) := by
  unfold setDefaultStep
  split
  · cases v <;> first | exact absurd rfl hv | (cases df <;> rfl)
  · rfl

/-- On an absent value with a supplier and defaults enabled, the default step
invokes the supplier once and writes its result into the record. -/
theorem setDefaultStep_fires (f : Unit → Value) (fs : FieldList) (key : String)
    (o : Option Options) (p : List String)
    (hsd : optFlag o (fun c => c.skipDefault?) = false) :
    setDefaultStep vUndefined (some f) (vObj fs) key o p
      = ⟨Except.ok (f (), vObj (setField fs key (f ()))),
         [⟨p ++ [key], Rule.rDefaultInvoked⟩]⟩ := by
  unfold setDefaultStep
  rw [hsd]
  simp [setProp, emit, liftE]

theorem Res.bind_cons_tr {α β : Type} (x : Res α) (f : α → Res β) (ev : Event) :
    bind (⟨x.res, ev :: x.tr⟩ : Res α) f = ⟨(bind x f).res, ev :: (bind x f).tr⟩ := by
  cases x with
  | mk xr xt => cases xr <;> simp

/-- With a defined (non-`undefined`) current value, the per-field pipeline is
entirely independent of the configured default supplier. -/
theorem validateFieldCore_default_independent (data : Value) (key : String) (v : Value)
    (t : Option String) (r : Option (Bool × Option String)) (mx mn : Option (Int × Option String))
    (vf : Option ((Value → Bool) × Option String)) (tf : Option (Value → Value))
    (df df2 : Option (Unit → Value)) (ao : Option String)
    (o : Option Options) (p : List String)
    (hg : getProp data key = Except.ok v) (hv : v ≠ vUndefined) :
    validateFieldCore data key t r mx mn vf tf df ao o p
      = validateFieldCore data key t r mx mn vf tf df2 ao o p := by
  simp only [validateFieldCore, hg]
  rw [show liftE (Except.ok v) = (pure v : Res Value) from rfl]
  simp only [Res.bind_pure_left]
  rw [setDefaultStep_defined v hv df, setDefaultStep_defined v hv df2]

/-- With an absent value, a supplier and defaults enabled, the pipeline run
equals — apart from the one recorded supplier invocation — the pipeline run
of a supplier-free field on the record whose field already holds the
supplier's result. -/
theorem validateFieldCore_default_fires (fs : FieldList) (key : String) (f : Unit → Value)
    (t : Option String) (r : Option (Bool × Option String)) (mx mn : Option (Int × Option String))
    (vf : Option ((Value → Bool) × Option String)) (tf : Option (Value → Value))
    (ao : Option String) (o : Option Options) (p : List String)
    (hg : getProp (vObj fs) key = Except.ok vUndefined)
    (hsd : optFlag o (fun c => c.skipDefault?) = false) :
    validateFieldCore (vObj fs) key t r mx mn vf tf (some f) ao o p
      = ⟨(validateFieldCore (vObj (setField fs key (f ()))) key t r mx mn vf tf none ao o p).res,
         ⟨p ++ [key], Rule.rDefaultInvoked⟩
           :: (validateFieldCore (vObj (setField fs key (f ()))) key t r mx mn vf tf none ao o p).tr⟩ := by
  have hg2 : getProp (vObj (setField fs key (f ()))) key = Except.ok (f ()) := by
    simp [getProp, lookupF_setField_self]
  simp only [validateFieldCore, hg, hg2]
  rw [show liftE (Except.ok vUndefined) = (pure vUndefined : Res Value) from rfl,
    show liftE (Except.ok (f ())) = (pure (f ()) : Res Value) from rfl]
  simp only [Res.bind_pure_left]
  rw [setDefaultStep_fires f fs key o p hsd, setDefaultStep_none]
  simp only [Res.bind_pure_left]
  rw [Res.bind_ok]
  rfl

/-- Replace a field definition's default supplier. -/
def FieldDef.withDefaultFn : FieldDef → Option (Unit → Value) → FieldDef
  | FieldDef.mk t r mx mn vf tf _ ao s?, df => FieldDef.mk t r mx mn vf tf df ao s?

/-- C7 — for every field with a default supplier: (1) when the field's value
is present (any defined value, including `null`), the whole field step is the
same as if no supplier were configured at all — the supplier is never
invoked; (2) when the field is `undefined` (and defaults are not skipped),
the run records exactly one supplier invocation, and behaves exactly like a
supplier-free run on the record whose field already holds the supplier's
result — so every subsequent rule observes that result; (3) a supplier-free
run records no invocation for this field. -/
theorem C7_default_supplier (d : FieldDef) (fs : FieldList) (key : String) (f : Unit → Value)
    (opts : Option Options) (path : List String) :
    (∀ v : Value, getProp (vObj fs) key = Except.ok v → v ≠ vUndefined →
      validateField (vObj fs) key (d.withDefaultFn (some f)) opts path
        = validateField (vObj fs) key (d.withDefaultFn none) opts path)
    ∧ (getProp (vObj fs) key = Except.ok vUndefined →
        optFlag opts (fun o => o.skipDefault?) = false →
        validateField (vObj fs) key (d.withDefaultFn (some f)) opts path
          = ⟨(validateField (vObj (setField fs key (f ()))) key (d.withDefaultFn none) opts path).res,
             ⟨path ++ [key], Rule.rDefaultInvoked⟩
               :: (validateField (vObj (setField fs key (f ()))) key (d.withDefaultFn none) opts path).tr⟩
        ∧ countEv (validateField (vObj fs) key (d.withDefaultFn (some f)) opts path).tr
            (path ++ [key]) Rule.rDefaultInvoked = 1)
    ∧ countEv (validateField (vObj fs) key (d.withDefaultFn none) opts path).tr
        (path ++ [key]) Rule.rDefaultInvoked = 0 := by
  obtain ⟨t, r, mx, mn, vf, tf, df0, ao, s?⟩ := d
  simp only [FieldDef.withDefaultFn]
  refine ⟨?_, ?_, ?_⟩
  · intro v hg hv
    rw [validateField.eq_1, validateField.eq_1,
      validateFieldCore_default_independent (vObj fs) key v t r mx mn vf tf (some f) none ao
        opts path hg hv]
  · intro hg hsd
    have hfire : validateField (vObj fs) key (FieldDef.mk t r mx mn vf tf (some f) ao s?) opts path
        = ⟨(validateField (vObj (setField fs key (f ()))) key
              (FieldDef.mk t r mx mn vf tf none ao s?) opts path).res,
           ⟨path ++ [key], Rule.rDefaultInvoked⟩
             :: (validateField (vObj (setField fs key (f ()))) key
                  (FieldDef.mk t r mx mn vf tf none ao s?) opts path).tr⟩ := by
      simp only [validateField.eq_1]
      rw [validateFieldCore_default_fires fs key f t r mx mn vf tf ao opts path hg hsd,
        Res.bind_cons_tr]
    refine ⟨hfire, ?_⟩
    have hzero := countEv_default_zero (vObj (setField fs key (f ()))) key
      (FieldDef.mk t r mx mn vf tf none ao s?) opts path rfl
    rw [hfire]
    simp only [countEv] at hzero ⊢
    rw [List.countP_cons, hzero]
    simp
  · exact countEv_default_zero (vObj fs) key (FieldDef.mk t r mx mn vf tf none ao s?) opts path rfl

/-- C7 witness: for `{a: {type:'number', default: () => 7}}`, the input
`{a: 5}` is validated exactly as if no default existed, while the input `{}`
records exactly one supplier invocation. -/
theorem C7_default_supplier_witness :
    (validateField (vObj (fcons "a" (vNum 5) fnil)) "a"
        ((FieldDef.mk (some "number") none none none none none none none none).withDefaultFn
          (some (fun _ => vNum 7))) none []
      = validateField (vObj (fcons "a" (vNum 5) fnil)) "a"
        ((FieldDef.mk (some "number") none none none none none none none none).withDefaultFn
          none) none [])
    ∧ countEv (validateField (vObj fnil) "a"
        ((FieldDef.mk (some "number") none none none none none none none none).withDefaultFn
          (some (fun _ => vNum 7))) none []).tr ["a"] Rule.rDefaultInvoked = 1 :=
  ⟨(C7_default_supplier (FieldDef.mk (some "number") none none none none none none none none)
      (fcons "a" (vNum 5) fnil) "a" (fun _ => vNum 7) none []).1 (vNum 5) rfl
      (fun h => Value.noConfusion h),
   ((C7_default_supplier (FieldDef.mk (some "number") none none none none none none none none)
      fnil "a" (fun _ => vNum 7) none []).2.1 rfl rfl).2⟩

/-! ## C4: fixed rule order; transform last, never on failure, never re-validated -/

/-- Drop a field definition's transform and nested schema, keeping every
check: the "checks only" portion of the pipeline. -/
def FieldDef.checksOnly : FieldDef → FieldDef
  | FieldDef.mk t r mx mn vf _ df ao _ => FieldDef.mk t r mx mn vf none df ao none

theorem Res.bind_of_error {α β : Type} {x : Res α} {e : JsError} (f : α → Res β)
    (h : x.res = Except.error e) : bind x f = ⟨Except.error e, x.tr⟩ := by
  cases x with
  | mk xr xt =>
    simp only at h
    subst h
    rfl

theorem Res.res_bind_pure_fst {α β : Type} {x : Res (α × β)} {e : JsError}
    (h : (bind x (fun dv => pure dv.1)).res = Except.error e) : x.res = Except.error e := by
  cases x with
  | mk xr xt =>
    cases xr with
    | error e2 => simpa using h
    | ok a => simp at h

/-- The pipeline with a transform factors as the transform-free pipeline
followed by the transform step on its outcome. -/
theorem validateFieldCore_transform_split (data : Value) (key : String)
    (t : Option String) (r : Option (Bool × Option String)) (mx mn : Option (Int × Option String))
    (vf : Option ((Value → Bool) × Option String)) (tf : Option (Value → Value))
    (df : Option (Unit → Value)) (ao : Option String) (o : Option Options) (p : List String) :
    validateFieldCore data key t r mx mn vf tf df ao o p
      = bind (validateFieldCore data key t r mx mn vf none df ao o p)
          (fun dv => bind (transformStep dv.2 tf dv.1 key p) (fun vd => pure (vd.2, vd.1))) := by
  simp only [validateFieldCore, Res.bind_assoc, Res.bind_pure_left, transformStep_none]

theorem requiredStep_ok_tr (v : Value) (r : Option (Bool × Option String)) (key : String)
    (o : Option Options) (p : List String) (h : validateRequired v r key = Except.ok ()) :
    requiredStep v r key o p
      = ⟨Except.ok (), if ¬ optFlag o (fun c => c.skipRequired?) then
          [⟨p ++ [key], Rule.rRequired⟩] else []⟩ := by
  unfold requiredStep
  split <;> simp_all [emit, liftE]

theorem transformStep_fires (v : Value) (hv : v ≠ vUndefined) (f : Value → Value)
    (data : Value) (key : String) (p : List String) :
    transformStep v (some f) data key p
      = ⟨(setProp data key (f v)).map (fun d2 => (f v, d2)),
         [⟨p ++ [key], Rule.rTransformInvoked⟩]⟩ := by
  have harm : transformStep v (some f) data key p
      = bind (emit ⟨p ++ [key], Rule.rTransformInvoked⟩)
          (fun _ => bind (liftE (setProp data key (f v))) (fun d2 => pure (f v, d2))) := by
    cases v <;> first | exact absurd rfl hv | rfl
  rw [harm]
  cases hsp : setProp data key (f v) <;> simp [hsp, emit, liftE, Except.map]

/-- When the per-field checks all pass on a defined value, the pipeline runs
them in the fixed order required → type → maxLength → minLength → custom →
array-element-type, invokes the transform exactly once *after* all of them,
and stores `f value` without re-running any check on it (`f` is arbitrary —
its output is never validated). -/
theorem validateFieldCore_checks_pass (data : Value) (key : String) (v : Value)
    (t : Option String) (r : Option (Bool × Option String)) (mx mn : Option (Int × Option String))
    (vf : Option ((Value → Bool) × Option String)) (f : Value → Value)
    (df : Option (Unit → Value)) (ao : Option String) (o : Option Options) (p : List String)
    (hg : getProp data key = Except.ok v) (hv : v ≠ vUndefined)
    (hr : validateRequired v r key = Except.ok ()) (ht : validateType v t key = Except.ok ())
    (hmx : validateMaxLength v mx key = Except.ok ())
    (hmn : validateMinLength v mn key = Except.ok ())
    (hcu : validateCustom v vf key = Except.ok ())
    (ha : validateArrayTypes v ao key = Except.ok ()) :
    validateFieldCore data key t r mx mn vf (some f) df ao o p
      = ⟨(setProp data key (f v)).map (fun d2 => (d2, f v)),
         (if ¬ optFlag o (fun c => c.skipRequired?) then [⟨p ++ [key], Rule.rRequired⟩] else [])
           ++ [⟨p ++ [key], Rule.rType⟩, ⟨p ++ [key], Rule.rMaxLength⟩,
               ⟨p ++ [key], Rule.rMinLength⟩, ⟨p ++ [key], Rule.rCustom⟩,
               ⟨p ++ [key], Rule.rArrayOf⟩, ⟨p ++ [key], Rule.rTransformInvoked⟩]⟩ := by
  simp only [validateFieldCore, hg]
  rw [show liftE (Except.ok v) = (pure v : Res Value) from rfl]
  simp only [Res.bind_pure_left]
  rw [setDefaultStep_defined v hv df]
  simp only [Res.bind_pure_left]
  rw [requiredStep_ok_tr v r key o p hr, transformStep_fires v hv f data key p]
  cases hsp : setProp data key (f v) <;>
    simp [hsp, emit, liftE, hr, ht, hmx, hmn, hcu, ha, Except.map]

/-- If the checks portion of the field step fails, the whole field step —
with its transform and nested schema restored — is identical to the failing
checks-only run: same error, same trace, transform never invoked. -/
theorem validateField_checks_fail (data : Value) (key : String) (d : FieldDef)
    (o : Option Options) (p : List String) (e : JsError)
    (hS : (validateField data key d.checksOnly o p).res = Except.error e) :
    validateField data key d o p = validateField data key d.checksOnly o p := by
  cases d with
  | mk t r mx mn vf tf df ao s? =>
    simp only [FieldDef.checksOnly] at hS ⊢
    have hc : (validateFieldCore data key t r mx mn vf none df ao o p).res = Except.error e := by
      rw [validateField.eq_1, Res.res_bind] at hS
      cases h : (validateFieldCore data key t r mx mn vf none df ao o p).res with
      | error e2 =>
        rw [h] at hS
        simpa [Except.bind] using hS
      | ok dv =>
        obtain ⟨d2, v2⟩ := dv
        rw [h] at hS
        simp [Except.bind] at hS
    rw [validateField.eq_1, validateField.eq_1,
      validateFieldCore_transform_split data key t r mx mn vf tf df ao o p, Res.bind_assoc,
      Res.bind_of_error _ hc, Res.bind_of_error _ hc]

/-- C4 — rule order within one field step.  (1) If any check of the fixed
sequence fails, the field step equals the transform-free, recursion-free run:
the error and trace are those of the first failing check and the transform is
never triggered.  (2) If every check passes on the (defined) value, the run's
trace is exactly required → type → maxLength → minLength → custom →
array-element-type followed by a single transform invocation, the output
field is `transform(value-after-all-checks)`, and the transform's result is
stored without being re-validated (the transform function is arbitrary). -/
theorem C4_rule_order :
    (∀ (data : Value) (key : String) (d : FieldDef) (o : Option Options) (p : List String)
        (e : JsError),
      (validateField data key d.checksOnly o p).res = Except.error e →
      validateField data key d o p = validateField data key d.checksOnly o p)
    ∧ (∀ (data : Value) (key : String) (v : Value) (t : Option String)
        (r : Option (Bool × Option String)) (mx mn : Option (Int × Option String))
        (vf : Option ((Value → Bool) × Option String)) (f : Value → Value)
        (df : Option (Unit → Value)) (ao : Option String) (o : Option Options) (p : List String),
      getProp data key = Except.ok v → v ≠ vUndefined →
      validateRequired v r key = Except.ok () → validateType v t key = Except.ok () →
      validateMaxLength v mx key = Except.ok () → validateMinLength v mn key = Except.ok () →
      validateCustom v vf key = Except.ok () → validateArrayTypes v ao key = Except.ok () →
      validateFieldCore data key t r mx mn vf (some f) df ao o p
        = ⟨(setProp data key (f v)).map (fun d2 => (d2, f v)),
           (if ¬ optFlag o (fun c => c.skipRequired?) then [⟨p ++ [key], Rule.rRequired⟩] else [])
             ++ [⟨p ++ [key], Rule.rType⟩, ⟨p ++ [key], Rule.rMaxLength⟩,
                 ⟨p ++ [key], Rule.rMinLength⟩, ⟨p ++ [key], Rule.rCustom⟩,
                 ⟨p ++ [key], Rule.rArrayOf⟩, ⟨p ++ [key], Rule.rTransformInvoked⟩]⟩) :=
  ⟨fun data key d o p e hS => validateField_checks_fail data key d o p e hS,
   fun data key v t r mx mn vf f df ao o p hg hv hr ht hmx hmn hcu ha =>
     validateFieldCore_checks_pass data key v t r mx mn vf f df ao o p hg hv hr ht hmx hmn hcu ha⟩

/-- C4 witness: `{a: {type:'string', transform: () => 9}}` on `{a: 1}` fails
the type check and behaves exactly like the transform-free definition; and
`{a: {type:'string', transform: () => null}}` on `{a: "x"}` runs the checks
in order, then stores `null` — a value that would fail the type check — 
without re-validating it. -/
theorem C4_rule_order_witness :
    (validateField (vObj (fcons "a" (vNum 1) fnil)) "a"
        (FieldDef.mk (some "string") none none none none (some (fun _ => vNum 9)) none none none)
        none []
      = validateField (vObj (fcons "a" (vNum 1) fnil)) "a"
        (FieldDef.mk (some "string") none none none none (some (fun _ => vNum 9)) none none
          none).checksOnly none [])
    ∧ validateFieldCore (vObj (fcons "a" (vStr "x") fnil)) "a" (some "string") none none none none
        (some (fun _ => vNull)) none none none []
      = ⟨Except.ok (vObj (fcons "a" vNull fnil), vNull),
         [⟨["a"], Rule.rRequired⟩, ⟨["a"], Rule.rType⟩, ⟨["a"], Rule.rMaxLength⟩,
          ⟨["a"], Rule.rMinLength⟩, ⟨["a"], Rule.rCustom⟩, ⟨["a"], Rule.rArrayOf⟩,
          ⟨["a"], Rule.rTransformInvoked⟩]⟩ :=
  ⟨C4_rule_order.1 (vObj (fcons "a" (vNum 1) fnil)) "a"
      (FieldDef.mk (some "string") none none none none (some (fun _ => vNum 9)) none none none)
      none [] (JsError.validationErr "a must be of type string, but got number") rfl,
   C4_rule_order.2 (vObj (fcons "a" (vStr "x") fnil)) "a" (vStr "x") (some "string") none none
      none none (fun _ => vNull) none none none [] rfl (fun h => Value.noConfusion h)
      rfl rfl rfl rfl rfl rfl⟩

/-! ## C8: fail-fast -/

theorem Res.bind_of_ok {α β : Type} {x : Res α} {a : α} (f : α → Res β)
    (h : x.res = Except.ok a) : bind x f = ⟨(f a).res, x.tr ++ (f a).tr⟩ := by
  cases x with
  | mk xr xt =>
    simp only at h
    subst h
    rfl

/-- The recursive case of the field step, phrased through `validate`: the
code's `this.validate(value, nestedSchema, options)` call with the same
inherited options, followed by the write-back. -/
theorem validateField_nested_eq (data : Value) (key : String)
    (t : Option String) (r : Option (Bool × Option String)) (mx mn : Option (Int × Option String))
    (vf : Option ((Value → Bool) × Option String)) (tf : Option (Value → Value))
    (df : Option (Unit → Value)) (ao : Option String) (ns : SchemaFields)
    (o : Option Options) (p : List String) :
    validateField data key (FieldDef.mk t r mx mn vf tf df ao (some ns)) o p
      = bind (validateFieldCore data key t r mx mn vf tf df ao o p) (fun dv =>
          bind (emit ⟨p ++ [key], Rule.rNested⟩) (fun _ =>
            bind (validate dv.2 ns o (p ++ [key])) (fun v4 => liftE (setProp dv.1 key v4)))) := by
  rw [validateField.eq_1]
  simp only [validate, Res.bind_assoc]

/-- C8 — fail-fast, in three forms.  (1) If the loop fails over a field
sequence, appending any further fields changes nothing: same error, same
trace (the later fields contribute no rule evaluation at all).  (2) If the
fields before `k` succeed and `k`'s own step fails, the whole loop's outcome
is exactly `k`'s error, with the trace stopping at `k`'s events.  (3) An
error thrown anywhere inside a nested schema's recursive `validate` call
propagates unchanged through the enclosing field step. -/
theorem C8_fail_fast :
    (∀ (data : Value) (fs1 fs2 : SchemaFields) (o : Option Options) (p : List String) (e : JsError),
      (validateFields data fs1 o p).res = Except.error e →
      validateFields data (appendS fs1 fs2) o p = validateFields data fs1 o p)
    ∧ (∀ (data d1 : Value) (fs1 : SchemaFields) (k : String) (d : FieldDef) (fs2 : SchemaFields)
        (o : Option Options) (p : List String) (e : JsError),
      (validateFields data fs1 o p).res = Except.ok d1 →
      (validateField d1 k d o p).res = Except.error e →
      validateFields data (appendS fs1 (scons k d fs2)) o p
        = ⟨Except.error e, (validateFields data fs1 o p).tr ++ (validateField d1 k d o p).tr⟩)
    ∧ (∀ (data d1 v : Value) (key : String) (t : Option String)
        (r : Option (Bool × Option String)) (mx mn : Option (Int × Option String))
        (vf : Option ((Value → Bool) × Option String)) (tf : Option (Value → Value))
        (df : Option (Unit → Value)) (ao : Option String) (ns : SchemaFields)
        (o : Option Options) (p : List String) (e : JsError),
      (validateFieldCore data key t r mx mn vf tf df ao o p).res = Except.ok (d1, v) →
      (validate v ns o (p ++ [key])).res = Except.error e →
      (validateField data key (FieldDef.mk t r mx mn vf tf df ao (some ns)) o p).res
        = Except.error e) := by
  refine ⟨?_, ?_, ?_⟩
  · intro data fs1 fs2 o p e h
    cases hX : validateFields data fs1 o p with
    | mk xr xt =>
      rw [hX] at h
      simp only at h
      subst h
      rw [validateFields_append, hX, Res.bind_error]
  · intro data d1 fs1 k d fs2 o p e hpre hf
    rw [validateFields_append, Res.bind_of_ok _ hpre, validateFields_cons,
      Res.bind_of_error _ hf]
  · intro data d1 v key t r mx mn vf tf df ao ns o p e hcore hinner
    rw [validateField_nested_eq, Res.res_bind, hcore]
    simp only [Except.bind, Res.res_bind, Res.res_emit, hinner]

/-- C8 witness: a failing type check on `a` makes the appended field `b`
invisible (identical run), and a required error raised inside the nested
schema of `a` propagates out as the error of the whole field step. -/
theorem C8_fail_fast_witness :
    validateFields (vObj (fcons "a" (vNum 1) fnil))
        (appendS
          (scons "a" (FieldDef.mk (some "string") none none none none none none none none) snil)
          (scons "b" (FieldDef.mk (some "number") none none none none none none none none) snil))
        none []
      = validateFields (vObj (fcons "a" (vNum 1) fnil))
          (scons "a" (FieldDef.mk (some "string") none none none none none none none none) snil)
          none []
    ∧ (validateField (vObj (fcons "a" (vObj (fcons "b" (vStr "x") fnil)) fnil)) "a"
        (FieldDef.mk (some "object") none none none none none none none
          (some (scons "b"
            (FieldDef.mk (some "number") (some (true, none)) none none none none none none none)
            snil)))
        none []).res = Except.error (JsError.validationErr "b is required") :=
  ⟨C8_fail_fast.1 (vObj (fcons "a" (vNum 1) fnil))
      (scons "a" (FieldDef.mk (some "string") none none none none none none none none) snil)
      (scons "b" (FieldDef.mk (some "number") none none none none none none none none) snil)
      none [] (JsError.validationErr "a must be of type string, but got number") rfl,
   C8_fail_fast.2.2 (vObj (fcons "a" (vObj (fcons "b" (vStr "x") fnil)) fnil))
      (vObj (fcons "a" (vObj (fcons "b" (vStr "x") fnil)) fnil))
      (vObj (fcons "b" (vStr "x") fnil)) "a" (some "object") none none none none none none none
      (scons "b" (FieldDef.mk (some "number") (some (true, none)) none none none none none none none)
        snil)
      none [] (JsError.validationErr "b is required") rfl rfl⟩

/-! ## C5: is nest/flatten applied only by the outermost call? -/

mutual
/-- The validator loop as the spec's claim describes it (for comparison with
the code): identical to `validateFields` except that the recursion into a
nested schema hands the already-nested value directly, performing no
nest/flatten at inner levels. -/
def validateFieldsSpecC5 (data : Value) (fields : SchemaFields) (opts : Option Options)
    (path : List String) : Res Value :=
  match fields with
  | snil => pure data
  | scons k d tl => do
    let data2 ← validateFieldSpecC5 data k d opts path
    validateFieldsSpecC5 data2 tl opts path

/-- One loop iteration per the spec's claim: the nested recursion strips and
walks the nested schema but never re-nests dotted keys nor flattens its
sub-result. -/
def validateFieldSpecC5 (data : Value) (key : String) (d : FieldDef) (opts : Option Options)
    (path : List String) : Res Value :=
  match d with
  | FieldDef.mk type? required? maxLength? minLength? validateFn? transformFn? defaultFn? arrayOf? schema? => do
    let (data2, value) ← validateFieldCore data key type? required? maxLength? minLength?
      validateFn? transformFn? defaultFn? arrayOf? opts path
    match schema? with
    | none => pure data2
    | some ns => do
      emit ⟨path ++ [key], Rule.rNested⟩
      let v2 := if ¬ optFlag opts (fun o => o.skipStrip?) then stripData value ns else value
      let v3 ← validateFieldsSpecC5 v2 ns opts (path ++ [key])
      liftE (setProp data2 key v3)
end

/-- `validate` as the spec's claim describes it: nest/flatten performed by
the outermost invocation only. -/
def validateSpecC5 (data : Value) (schema : SchemaFields) (opts : Option Options)
    (path : List String) : Res Value := do
  let d1 ← liftE (if optFlag opts (fun o => o.allowDotPaths?) then nestData data else Except.ok data)
  let d2 := if ¬ optFlag opts (fun o => o.skipStrip?) then stripData d1 schema else d1
  let d3 ← validateFieldsSpecC5 d2 schema opts path
  liftE (if optFlag opts (fun o => o.allowDotPaths?) then flattenTop d3 else Except.ok d3)

/-- Schema `{a: {type:'object', schema: {b: {type:'object', required:true,
schema: {c: {type:'number'}}}}}}`. -/
def schemaC5 : SchemaFields :=
  scons "a" (FieldDef.mk (some "object") none none none none none none none
    (some (scons "b" (FieldDef.mk (some "object") (some (true, none)) none none none none none none
      (some (scons "c" (FieldDef.mk (some "number") none none none none none none none none) snil)))
      snil))) snil

/-- Options `{skipStrip: true, allowDotNotation: true}`. -/
def dotOpts : Option Options := some (Options.mk (some true) none none (some true))

/-- C5 counterexample — the claim says the recursive calls do not repeat the
nest/flatten step at inner levels.  On the input `{a: {"b.c": 1}}` the code
succeeds (returning `{"a.b.c": 1}`) precisely because the recursive call
re-nests the dotted key `"b.c"` found inside the nested value; the
claim-faithful variant, which does not repeat the conversion, fails with
"b is required".  The two disagree, so the claim is false of the code. -/
theorem C5_inner_codec_counterexample :
    (validate (vObj (fcons "a" (vObj (fcons "b.c" (vNum 1) fnil)) fnil)) schemaC5 dotOpts []).res
      = Except.ok (vObj (fcons "a.b.c" (vNum 1) fnil))
    ∧ (validateSpecC5 (vObj (fcons "a" (vObj (fcons "b.c" (vNum 1) fnil)) fnil)) schemaC5
        dotOpts []).res
      = Except.error (JsError.validationErr "b is required") :=
  ⟨rfl, rfl⟩

/-- C5 as amended: the recursive calls inherit the same options object and
therefore DO repeat the nest/flatten conversion at every nesting level —
dotted keys inside nested values are re-nested on the way down and each
sub-result is flattened on the way back up (for any stored number `n`),
unlike the outermost-only variant, which rejects the same input. -/
theorem C5_inner_codec_repeats :
    ∀ n : Int,
      (validate (vObj (fcons "a" (vObj (fcons "b.c" (vNum n) fnil)) fnil)) schemaC5 dotOpts []).res
        = Except.ok (vObj (fcons "a.b.c" (vNum n) fnil))
      ∧ (validateSpecC5 (vObj (fcons "a" (vObj (fcons "b.c" (vNum n) fnil)) fnil)) schemaC5
          dotOpts []).res
        = Except.error (JsError.validationErr "b is required") :=
  fun n => ⟨rfl, rfl⟩

/-! ## C3: the nest/flatten round trip -/

/-- Whether a value is a plain mapping (`vObj`). -/
def isObjV : Value → Bool
  | vObj _ => true
  | _ => false

/-- The entries of an object, as a list. -/
def entriesF : FieldList → List (String × Value)
  | fnil => []
  | fcons k v tl => (k, v) :: entriesF tl

theorem beq_comm_false {k q : String} (h : (k == q) = false) : (q == k) = false := by
  simp only [beq_eq_false_iff_ne] at h ⊢
  exact fun e => h e.symm

theorem lookupF_setField (fs : FieldList) (k q : String) (w : Value) :
    lookupF (setField fs k w) q = if k == q then some w else lookupF fs q := by
  refine FieldList.indOn (motive := fun fs =>
    lookupF (setField fs k w) q = if k == q then some w else lookupF fs q) fs ?_ ?_
  · simp [setField, lookupF]
  · intro k2 v tl ih
    by_cases h : k2 == k
    · have hk : k2 = k := by simpa using h
      subst hk
      by_cases hq : k2 == q <;> simp [setField, lookupF, hq]
    · have h2 : (k2 == k) = false := by simpa using h
      simp only [setField, h2, Bool.false_eq_true, if_false, lookupF]
      by_cases hq : k2 == q
      · have hkq : k2 = q := by simpa using hq
        subst hkq
        have : (k2 == k2) = true := by simp
        simp only [lookupF, this, if_true]
        have h3 : (k == k2) = false := beq_comm_false h2
        simp [h3]
      · have hq2 : (k2 == q) = false := by simpa using hq
        simp [lookupF, hq2, ih]

/-- Unique keys at one object level. -/
def NodupF : FieldList → Prop
  | fnil => True
  | fcons k _ tl => lookupF tl k = none ∧ NodupF tl

theorem lookupF_none_setField (fs : FieldList) (k q : String) (w : Value)
    (hne : (k == q) = false) (h : lookupF fs q = none) :
    lookupF (setField fs k w) q = none := by
  rw [lookupF_setField, hne]
  · simpa using h
  
theorem NodupF_setField (fs : FieldList) (k : String) (w : Value) (h : NodupF fs) :
    NodupF (setField fs k w) := by
  refine FieldList.indOn (motive := fun fs => NodupF fs → NodupF (setField fs k w)) fs ?_ ?_ h
  · intro _
    simp [setField, NodupF, lookupF]
  · intro k2 v tl ih hn
    obtain ⟨h1, h2⟩ := hn
    by_cases hk : k2 == k
    · have : k2 = k := by simpa using hk
      subst this
      simp only [setField, beq_self_eq_true, if_true]
      exact ⟨h1, h2⟩
    · have hk2 : (k2 == k) = false := by simpa using hk
      simp only [setField, hk2, Bool.false_eq_true, if_false]
      refine ⟨?_, ih h2⟩
      exact lookupF_none_setField tl k k2 w (beq_comm_false hk2) h1

/-- First-result choice on optional values. -/
def orO (a b : Option Value) : Option Value :=
  match a with
  | some v => some v
  | none => b

@[simp] theorem orO_some (v : Value) (b : Option Value) : orO (some v) b = some v := rfl

@[simp] theorem orO_none (b : Option Value) : orO none b = b := rfl

theorem NodupF_assignFields (src : FieldList) :
    ∀ acc : FieldList, NodupF acc → NodupF (assignFields acc src) := by
  refine FieldList.indOn (motive := fun src =>
    ∀ acc : FieldList, NodupF acc → NodupF (assignFields acc src)) src ?_ ?_
  · intro acc h
    exact h
  · intro k v tl ih acc h
    exact ih (setField acc k v) (NodupF_setField acc k v h)

theorem lookupF_assignFields (src : FieldList) :
    ∀ acc : FieldList, NodupF src → ∀ q : String,
      lookupF (assignFields acc src) q = orO (lookupF src q) (lookupF acc q) := by
  refine FieldList.indOn (motive := fun src =>
    ∀ acc : FieldList, NodupF src → ∀ q : String,
      lookupF (assignFields acc src) q = orO (lookupF src q) (lookupF acc q)) src ?_ ?_
  · intro acc _ q
    simp [assignFields, lookupF]
  · intro k v tl ih acc hn q
    obtain ⟨h1, h2⟩ := hn
    show lookupF (assignFields (setField acc k v) tl) q = _
    rw [ih (setField acc k v) h2 q, lookupF_setField]
    by_cases hk : k == q
    · have hkq : k = q := by simpa using hk
      subst hkq
      rw [h1]
      simp [lookupF, orO]
    · have hk2 : (k == q) = false := by simpa using hk
      simp [lookupF, hk2]

@[simp] theorem flattenAcc_nil (acc : FieldList) (pfx : String) : flattenAcc acc pfx fnil = acc := rfl

theorem flattenAcc_cons (acc : FieldList) (pfx k : String) (v : Value) (tl : FieldList) :
    flattenAcc acc pfx (fcons k v tl) = flattenAcc (flattenStep acc pfx k v) pfx tl := rfl

theorem flattenStep_obj (acc : FieldList) (pfx k : String) (fs : FieldList) :
    flattenStep acc pfx k (vObj fs) = assignFields acc (flattenAcc fnil (pfx ++ k ++ ".") fs) := rfl

theorem NodupF_flattenStep (acc : FieldList) (pfx k : String) (v : Value) (h : NodupF acc) :
    NodupF (flattenStep acc pfx k v) := by
  cases v <;>
    first
      | exact NodupF_assignFields _ acc h
      | exact NodupF_setField acc _ _ h

theorem NodupF_flattenAcc (t : FieldList) :
    ∀ acc : FieldList, ∀ pfx : String, NodupF acc → NodupF (flattenAcc acc pfx t) := by
  refine FieldList.indOn (motive := fun t =>
    ∀ acc : FieldList, ∀ pfx : String, NodupF acc → NodupF (flattenAcc acc pfx t)) t ?_ ?_
  · intro acc pfx h
    exact h
  · intro k v tl ih acc pfx h
    rw [flattenAcc_cons]
    exact ih (flattenStep acc pfx k v) pfx (NodupF_flattenStep acc pfx k v h)

/-- The leaf value (if any) stored at a path in a nested record: walks
plain-object levels and stops at a non-object value on the last segment. -/
def treeLook : FieldList → List String → Option Value
  | _, [] => none
  | t, [s] =>
    match lookupF t s with
    | some (vObj _) => none
    | some w => some w
    | none => none
  | t, s :: s2 :: rest =>
    match lookupF t s with
    | some (vObj sub) => treeLook sub (s2 :: rest)
    | _ => none

@[simp] theorem treeLook_nil_path (t : FieldList) : treeLook t [] = none := rfl

theorem treeLook_single (t : FieldList) (s : String) :
    treeLook t [s] = match lookupF t s with
      | some (vObj _) => none
      | some w => some w
      | none => none := rfl

theorem treeLook_cons2 (t : FieldList) (s s2 : String) (r : List String) :
    treeLook t (s :: s2 :: r) = match lookupF t s with
      | some (vObj sub) => treeLook sub (s2 :: r)
      | _ => none := rfl

mutual
/-- Well-formed nested value: object levels have unique keys throughout. -/
def TreeWFv : Value → Prop
  | vObj fs => TreeWFf fs
  | _ => True
/-- Well-formed nested record: unique keys at this and every deeper level. -/
def TreeWFf : FieldList → Prop
  | fnil => True
  | fcons k v tl => lookupF tl k = none ∧ TreeWFv v ∧ TreeWFf tl
end

theorem TreeWFv_nonobj (w : Value) (h : isObjV w = false) : TreeWFv w := by
  cases w <;> first | exact trivial | simp [isObjV] at h

theorem TreeWF_setField (fs : FieldList) (k : String) (w : Value)
    (hw : TreeWFv w) : TreeWFf fs → TreeWFf (setField fs k w) := by
  refine FieldList.indOn (motive := fun fs => TreeWFf fs → TreeWFf (setField fs k w)) fs ?_ ?_
  · intro _
    exact ⟨rfl, hw, trivial⟩
  · intro k2 v tl ih h
    obtain ⟨h1, h2, h3⟩ := h
    by_cases hk : k2 == k
    · have : k2 = k := by simpa using hk
      subst this
      simp only [setField, beq_self_eq_true, if_true]
      exact ⟨h1, hw, h3⟩
    · have hk2 : (k2 == k) = false := by simpa using hk
      simp only [setField, hk2, Bool.false_eq_true, if_false]
      exact ⟨lookupF_none_setField tl k k2 w (beq_comm_false hk2) h1, h2, ih h3⟩

/-- Bool test: is `p` an initial segment of `q`? -/
def isPreB : List String → List String → Bool
  | [], _ => true
  | _ :: _, [] => false
  | a :: as, b :: bs => a == b && isPreB as bs

@[simp] theorem isPreB_nil (q : List String) : isPreB [] q = true := by
  cases q <;> rfl

theorem isPreB_cons_same (s : String) (p q : List String) :
    isPreB (s :: p) (s :: q) = isPreB p q := by
  simp [isPreB]

theorem treeLook_fnil (q : List String) : treeLook fnil q = none := by
  match q with
  | [] => rfl
  | [s] => rfl
  | s :: s2 :: r => rfl


theorem TreeWF_lookup (t : FieldList) (s : String) (v : Value)
    (hwf : TreeWFf t) (hl : lookupF t s = some v) : TreeWFv v := by
  refine FieldList.indOn
    (motive := fun t => TreeWFf t → lookupF t s = some v → TreeWFv v) t ?_ ?_ hwf hl
  · intro _ h
    simp [lookupF] at h
  · intro k w tl ih hwf2 h
    obtain ⟨_, h2, h3⟩ := hwf2
    by_cases hk : k == s
    · simp only [lookupF, hk, if_true] at h
      exact Option.some.inj h ▸ h2
    · have hk2 : (k == s) = false := by simpa using hk
      simp only [lookupF, hk2, Bool.false_eq_true, if_false] at h
      exact ih h3 h

/-- Inserting one split key into the object under construction: under
path-freedom, the insertion succeeds, stays well-formed, and adds exactly the
one leaf. -/
theorem insertPath_charac (p : List String) :
    ∀ (t : FieldList) (w : Value),
      p ≠ [] → isObjV w = false → TreeWFf t →
      (∀ q, treeLook t q ≠ none → isPreB q p = false ∧ isPreB p q = false) →
      ∃ t', insertPath t p w = Except.ok t' ∧ TreeWFf t'
        ∧ ∀ q, treeLook t' q = if q = p then some w else treeLook t q := by
  induction p with
  | nil =>
    intro t w hp _ _ _
    exact absurd rfl hp
  | cons s rest ih =>
    intro t w _ hw hwf hfree
    cases rest with
    | nil =>
      refine ⟨setField t s w, rfl, TreeWF_setField t s w (TreeWFv_nonobj w hw) hwf, ?_⟩
      intro q
      match q with
      | [] => simp
      | [s'] =>
        by_cases hs : s == s'
        · have hss : s = s' := by simpa using hs
          subst hss
          rw [if_pos rfl, treeLook_single, lookupF_setField]
          simp only [beq_self_eq_true, if_true]
          cases w <;> first | rfl | simp [isObjV] at hw
        · have hsne : s ≠ s' := by simpa using hs
          have hs2 : (s == s') = false := by simpa using hs
          have hne : ([s'] : List String) ≠ [s] := by
            intro hcon
            injection hcon with h1 _
            exact hsne h1.symm
          rw [if_neg hne, treeLook_single, treeLook_single, lookupF_setField, hs2]
          simp
      | s' :: s2' :: r' =>
        have hne : (s' :: s2' :: r' : List String) ≠ [s] := by simp
        rw [if_neg hne]
        by_cases hs : s == s'
        · have hss : s = s' := by simpa using hs
          subst hss
          rw [treeLook_cons2, treeLook_cons2, lookupF_setField]
          simp only [beq_self_eq_true, if_true]
          have hrhs : (match lookupF t s with
              | some (vObj sub) => treeLook sub (s2' :: r')
              | _ => none) = none := by
            have hz : treeLook t (s :: s2' :: r') = none := by
              by_contra hcon
              have h2 := (hfree _ hcon).2
              rw [isPreB_cons_same] at h2
              simp at h2
            rw [treeLook_cons2] at hz
            exact hz
          rw [hrhs]
          cases w <;> first | rfl | simp [isObjV] at hw
        · have hs2 : (s == s') = false := by simpa using hs
          rw [treeLook_cons2, treeLook_cons2, lookupF_setField, hs2]
          simp
    | cons s2 r2 =>
      cases hl : lookupF t s
      case some v0 =>
        cases v0
        case vObj sub =>
          have hsubwf : TreeWFf sub := TreeWF_lookup t s (vObj sub) hwf hl
          have hfree2 : ∀ q', treeLook sub q' ≠ none →
              isPreB q' (s2 :: r2) = false ∧ isPreB (s2 :: r2) q' = false := by
            intro q' hq'
            match q' with
            | [] => exact absurd rfl hq'
            | a :: as =>
              have ht : treeLook t (s :: a :: as) ≠ none := by
                rw [treeLook_cons2, hl]
                exact hq'
              have h12 := hfree (s :: a :: as) ht
              refine ⟨?_, ?_⟩
              · have h1 := h12.1
                rw [isPreB_cons_same] at h1
                exact h1
              · have h2 := h12.2
                rw [isPreB_cons_same] at h2
                exact h2
          obtain ⟨sub', hsub, hsubwf2, hsubq⟩ := ih sub w (by simp) hw hsubwf hfree2
          refine ⟨setField t s (vObj sub'), by simp [insertPath, hl, hsub, Except.bind]; rfl,
            TreeWF_setField t s (vObj sub') hsubwf2 hwf, ?_⟩
          intro q
          match q with
          | [] => simp
          | [s'] =>
            have hne : ([s'] : List String) ≠ s :: s2 :: r2 := by simp
            rw [if_neg hne, treeLook_single, treeLook_single, lookupF_setField]
            by_cases hs : s == s'
            · have hss : s = s' := by simpa using hs
              subst hss
              simp only [beq_self_eq_true, if_true, hl]
            · have hs2 : (s == s') = false := by simpa using hs
              rw [hs2]
              simp
          | s' :: s2' :: r' =>
            by_cases hs : s == s'
            · have hss : s = s' := by simpa using hs
              subst hss
              rw [treeLook_cons2, treeLook_cons2, lookupF_setField]
              simp only [beq_self_eq_true, if_true, hl]
              rw [hsubq (s2' :: r')]
              by_cases hq2 : (s2' :: r' : List String) = s2 :: r2
              · rw [if_pos hq2, if_pos (by rw [hq2] : (s :: s2' :: r' : List String) = s :: s2 :: r2)]
              · have hne2 : (s :: s2' :: r' : List String) ≠ s :: s2 :: r2 := by
                  simpa using hq2
                rw [if_neg hq2, if_neg hne2]
            · have hsne : s ≠ s' := by simpa using hs
              have hs2 : (s == s') = false := by simpa using hs
              have hne : (s' :: s2' :: r' : List String) ≠ s :: s2 :: r2 := by
                intro hcon
                injection hcon with h1 _
                exact hsne h1.symm
              rw [if_neg hne, treeLook_cons2, treeLook_cons2, lookupF_setField, hs2]
              simp
        all_goals
          exfalso
          have hq : treeLook t [s] ≠ none := by
            rw [treeLook_single, hl]
            simp
          have h2 := (hfree [s] hq).1
          simp [isPreB] at h2
      case none =>
        obtain ⟨sub, hsub, hsubwf, hsubq⟩ := ih fnil w (by simp) hw trivial
          (by intro q hq; rw [treeLook_fnil] at hq; exact absurd rfl hq)
        refine ⟨setField t s (vObj sub), by simp [insertPath, hl, hsub, Except.bind]; rfl,
          TreeWF_setField t s (vObj sub) hsubwf hwf, ?_⟩
        intro q
        match q with
        | [] => simp
        | [s'] =>
          have hne : ([s'] : List String) ≠ s :: s2 :: r2 := by simp
          rw [if_neg hne, treeLook_single, treeLook_single, lookupF_setField]
          by_cases hs : s == s'
          · have hss : s = s' := by simpa using hs
            subst hss
            simp only [beq_self_eq_true, if_true, hl]
          · have hs2 : (s == s') = false := by simpa using hs
            rw [hs2]
            simp
        | s' :: s2' :: r' =>
          by_cases hs : s == s'
          · have hss : s = s' := by simpa using hs
            subst hss
            rw [treeLook_cons2, treeLook_cons2, lookupF_setField]
            simp only [beq_self_eq_true, if_true, hl]
            rw [hsubq (s2' :: r')]
            by_cases hq2 : (s2' :: r' : List String) = s2 :: r2
            · rw [if_pos hq2, if_pos (by rw [hq2] : (s :: s2' :: r' : List String) = s :: s2 :: r2)]
            · have hne2 : (s :: s2' :: r' : List String) ≠ s :: s2 :: r2 := by
                simpa using hq2
              rw [if_neg hq2, if_neg hne2, treeLook_fnil]
          · have hsne : s ≠ s' := by simpa using hs
            have hs2 : (s == s') = false := by simpa using hs
            have hne : (s' :: s2' :: r' : List String) ≠ s :: s2 :: r2 := by
              intro hcon
              injection hcon with h1 _
              exact hsne h1.symm
            rw [if_neg hne, treeLook_cons2, treeLook_cons2, lookupF_setField, hs2]
            simp

theorem orO_none_right (a : Option Value) : orO a none = a := by
  cases a <;> rfl

theorem orO_assoc (a b c : Option Value) : orO (orO a b) c = orO a (orO b c) := by
  cases a <;> rfl

theorem orO_ne_none_left (a b : Option Value) (h : a ≠ none) : orO a b ≠ none := by
  cases a
  · exact absurd rfl h
  · simp [orO]

theorem orO_ne_none_right (a b : Option Value) (h : b ≠ none) : orO a b ≠ none := by
  cases a
  · simpa [orO] using h
  · simp [orO]

theorem isPreB_refl (p : List String) : isPreB p p = true := by
  induction p with
  | nil => rfl
  | cons a as ih => simp [isPreB, ih]

/-- Mutual freedom of two paths: neither is an initial segment of the other
(the "no path-segment ambiguity" reading for a pair of keys). -/
def freeB (p q : List String) : Bool := !isPreB p q && !isPreB q p

theorem freeB_self (p : List String) : freeB p p = false := by
  simp [freeB, isPreB_refl]

/-- Pairwise freedom of a list of split paths. -/
def pairwiseFreeB : List (List String) → Bool
  | [] => true
  | p :: ps => (ps.all fun q => freeB p q) && pairwiseFreeB ps

/-- Lookup of a flat record by the *split* form of its keys. -/
def lookupSplit : FieldList → List String → Option Value
  | fnil, _ => none
  | fcons k v tl, q => if splitKey k = q then some v else lookupSplit tl q

/-- The hypothesis of the round-trip law, decidably: every key splits into a
non-empty segment list that joins back to the key, no stored value is a plain
mapping, and the split keys are pairwise free of path-segment ambiguity. -/
def GoodFlatB (F : FieldList) : Bool :=
  ((keysF F).all fun k => !(splitKey k).isEmpty && (joinSegs (splitKey k) == k)) &&
  ((entriesF F).all fun kv => !isObjV kv.2) &&
  pairwiseFreeB ((keysF F).map splitKey)

mutual
/-- The leaves of a nested record, as (path, value) pairs in traversal
order. -/
def leavesF : FieldList → List (List String × Value)
  | fnil => []
  | fcons k v tl => leavesV k v ++ leavesF tl
/-- The leaves contributed by one field. -/
def leavesV (k : String) : Value → List (List String × Value)
  | vObj sub => (leavesF sub).map fun pw => (k :: pw.1, pw.2)
  | w => [([k], w)]
end

/-- Last-match lookup of a leaf list by exact path (matches the
last-write-wins overwriting of `Object.assign` chains). -/
def lookupPathLast : List (List String × Value) → List String → Option Value
  | [], _ => none
  | e :: rest, q => orO (lookupPathLast rest q) (if e.1 = q then some e.2 else none)

/-- Last-match lookup of a leaf list by flattened key. -/
def lookupLeafLast : List (List String × Value) → String → String → Option Value
  | [], _, _ => none
  | e :: rest, px, k =>
    orO (lookupLeafLast rest px k) (if px ++ joinSegs e.1 = k then some e.2 else none)

theorem lookupPathLast_append (L1 L2 : List (List String × Value)) (q : List String) :
    lookupPathLast (L1 ++ L2) q = orO (lookupPathLast L2 q) (lookupPathLast L1 q) := by
  induction L1 with
  | nil => simp [lookupPathLast, orO_none_right]
  | cons e rest ih =>
    show orO (lookupPathLast (rest ++ L2) q) (if e.1 = q then some e.2 else none) = _
    rw [ih, orO_assoc]
    rfl

theorem lookupLeafLast_append (L1 L2 : List (List String × Value)) (px k : String) :
    lookupLeafLast (L1 ++ L2) px k = orO (lookupLeafLast L2 px k) (lookupLeafLast L1 px k) := by
  induction L1 with
  | nil => simp [lookupLeafLast, orO_none_right]
  | cons e rest ih =>
    show orO (lookupLeafLast (rest ++ L2) px k) (if px ++ joinSegs e.1 = k then some e.2 else none) = _
    rw [ih, orO_assoc]
    rfl

theorem lookupPathLast_none (L : List (List String × Value)) (q : List String)
    (h : ∀ e ∈ L, e.1 ≠ q) : lookupPathLast L q = none := by
  induction L with
  | nil => rfl
  | cons e rest ih =>
    simp only [lookupPathLast, ih (fun e2 he2 => h e2 (List.mem_cons_of_mem _ he2)), orO_none,
      h e (List.mem_cons_self _ _), if_false]

theorem lookupLeafLast_noneJ (L : List (List String × Value)) (px k : String)
    (h : ∀ e ∈ L, px ++ joinSegs e.1 ≠ k) : lookupLeafLast L px k = none := by
  induction L with
  | nil => rfl
  | cons e rest ih =>
    simp only [lookupLeafLast, ih (fun e2 he2 => h e2 (List.mem_cons_of_mem _ he2)), orO_none,
      h e (List.mem_cons_self _ _), if_false]

theorem lookupPathLast_mem (L : List (List String × Value)) (e : List String × Value)
    (he : e ∈ L) : lookupPathLast L e.1 ≠ none := by
  induction L with
  | nil => cases he
  | cons e2 rest ih =>
    rcases List.mem_cons.mp he with h | h
    · apply orO_ne_none_right
      rw [← h]
      simp
    · exact orO_ne_none_left _ _ (ih h)

theorem lookupPathLast_map_cons (L : List (List String × Value)) (s : String) (q : List String) :
    lookupPathLast (L.map fun pw => (s :: pw.1, pw.2)) (s :: q) = lookupPathLast L q := by
  induction L with
  | nil => rfl
  | cons e rest ih =>
    by_cases he : e.1 = q <;>
      simp [lookupPathLast, ih, he]

theorem leavesV_shape (k : String) (v : Value) : ∀ e ∈ leavesV k v, ∃ p', e.1 = k :: p' := by
  cases v
  case vObj sub =>
    intro e he
    have hv : leavesV k (vObj sub) = (leavesF sub).map fun pw => (k :: pw.1, pw.2) := rfl
    rw [hv] at he
    obtain ⟨pw, _, rfl⟩ := List.mem_map.mp he
    exact ⟨pw.1, rfl⟩
  all_goals
    intro e he
    simp only [leavesV, List.mem_singleton] at he
    subst he
    exact ⟨[], rfl⟩

theorem leavesF_ne_nil (T : FieldList) : ∀ e ∈ leavesF T, e.1 ≠ [] := by
  refine FieldList.indOn (motive := fun T => ∀ e ∈ leavesF T, e.1 ≠ []) T ?_ ?_
  · intro e he
    cases he
  · intro k v tl ih e he
    have hT : leavesF (fcons k v tl) = leavesV k v ++ leavesF tl := rfl
    rw [hT] at he
    rcases List.mem_append.mp he with h | h
    · obtain ⟨p', hp'⟩ := leavesV_shape k v e h
      rw [hp']
      simp
    · exact ih e h

theorem strAppend_nil (s : String) : "" ++ s = s := by
  cases s with
  | mk l => rfl

theorem strAppend_assoc (a b c : String) : a ++ b ++ c = a ++ (b ++ c) := by
  cases a with
  | mk la =>
    cases b with
    | mk lb =>
      cases c with
      | mk lc =>
        show String.mk (la ++ lb ++ lc) = String.mk (la ++ (lb ++ lc))
        rw [List.append_assoc]

theorem joinSegs_cons (k0 : String) (p : List String) (hp : p ≠ []) :
    joinSegs (k0 :: p) = k0 ++ "." ++ joinSegs p := by
  cases p with
  | nil => exact absurd rfl hp
  | cons a as => rfl

theorem lookupLeafLast_map_cons (L : List (List String × Value)) (hne : ∀ e ∈ L, e.1 ≠ [])
    (px k0 k : String) :
    lookupLeafLast (L.map fun pw => (k0 :: pw.1, pw.2)) px k =
      lookupLeafLast L (px ++ k0 ++ ".") k := by
  induction L with
  | nil => rfl
  | cons e rest ih =>
    simp only [List.map_cons, lookupLeafLast]
    rw [ih (fun e2 he2 => hne e2 (List.mem_cons_of_mem _ he2))]
    have hj : px ++ joinSegs (k0 :: e.1) = px ++ k0 ++ "." ++ joinSegs e.1 := by
      rw [joinSegs_cons k0 e.1 (hne e (List.mem_cons_self _ _))]
      rw [strAppend_assoc px k0 "."]
      rw [strAppend_assoc px (k0 ++ ".") (joinSegs e.1)]
    rw [hj]

theorem lastLeaf_via_path (L : List (List String × Value)) (px k : String) (q : List String)
    (hiff : ∀ e ∈ L, (px ++ joinSegs e.1 = k) ↔ e.1 = q) :
    lookupLeafLast L px k = lookupPathLast L q := by
  induction L with
  | nil => rfl
  | cons e rest ih =>
    simp only [lookupLeafLast, lookupPathLast]
    rw [ih (fun e2 he2 => hiff e2 (List.mem_cons_of_mem _ he2))]
    by_cases he : e.1 = q
    · rw [if_pos he, if_pos ((hiff e (List.mem_cons_self _ _)).mpr he)]
    · rw [if_neg he, if_neg (fun hc => he ((hiff e (List.mem_cons_self _ _)).mp hc))]

theorem sizeOf_fcons_val (k : String) (v : Value) (tl : FieldList) :
    sizeOf v < sizeOf (fcons k v tl) := by
  rw [FieldList.fcons.sizeOf_spec]
  omega

theorem sizeOf_fcons_tail (k : String) (v : Value) (tl : FieldList) :
    sizeOf tl < sizeOf (fcons k v tl) := by
  rw [FieldList.fcons.sizeOf_spec]
  omega

theorem sizeOf_vObj_sub (fs : FieldList) : sizeOf fs < sizeOf (vObj fs) := by
  rw [Value.vObj.sizeOf_spec]
  omega

theorem treeLook_eq_leaves_aux :
    ∀ n : Nat, ∀ T : FieldList, sizeOf T < n → TreeWFf T →
      ∀ q, treeLook T q = lookupPathLast (leavesF T) q := by
  intro n
  induction n with
  | zero =>
    intro T h
    exact (Nat.not_lt_zero _ h).elim
  | succ n ih =>
    intro T hT hwf q
    cases T with
    | fnil =>
      rw [treeLook_fnil]
      rfl
    | fcons k0 v tl =>
      obtain ⟨hk0, hv, htl⟩ := hwf
      have htlsz : sizeOf tl < n := by
        have h1 := sizeOf_fcons_tail k0 v tl
        omega
      cases q with
      | nil =>
        rw [treeLook_nil_path]
        exact (lookupPathLast_none _ _ (fun e he => leavesF_ne_nil _ e he)).symm
      | cons s qrest =>
        have hsplit : leavesF (fcons k0 v tl) = leavesV k0 v ++ leavesF tl := rfl
        rw [hsplit, lookupPathLast_append]
        by_cases hk : k0 == s
        · have hks : k0 = s := by simpa using hk
          subst hks
          have htl0 : treeLook tl (k0 :: qrest) = none := by
            cases qrest with
            | nil =>
              rw [treeLook_single, hk0]
            | cons b bs =>
              rw [treeLook_cons2, hk0]
          have htleq : lookupPathLast (leavesF tl) (k0 :: qrest) = none := by
            rw [← ih tl htlsz htl (k0 :: qrest)]
            exact htl0
          rw [htleq, orO_none]
          cases v
          all_goals first
          | (cases qrest with
             | nil =>
               rw [treeLook_single]
               simp [lookupF, lookupPathLast, leavesV, orO]
               done
             | cons b bs =>
               rw [treeLook_cons2]
               simp [lookupF, lookupPathLast, leavesV, orO]
               done)
          | (rename_i sub
             have hsubsz : sizeOf sub < n := by
               have h1 := sizeOf_vObj_sub sub
               have h2 := sizeOf_fcons_val k0 (vObj sub) tl
               omega
             have hv2 : TreeWFf sub := hv
             have hmapv : leavesV k0 (vObj sub) =
                 (leavesF sub).map (fun pw => (k0 :: pw.1, pw.2)) := rfl
             cases qrest with
             | nil =>
               have hR : lookupPathLast (leavesV k0 (vObj sub)) [k0] = none := by
                 apply lookupPathLast_none
                 intro e he hcon
                 rw [hmapv] at he
                 obtain ⟨pw, hpw, rfl⟩ := List.mem_map.mp he
                 injection hcon with _ h2
                 exact leavesF_ne_nil sub pw hpw h2
               rw [hR, treeLook_single]
               have hl : lookupF (fcons k0 (vObj sub) tl) k0 = some (vObj sub) := by
                 simp [lookupF]
               rw [hl]
             | cons b bs =>
               rw [treeLook_cons2]
               have hl : lookupF (fcons k0 (vObj sub) tl) k0 = some (vObj sub) := by
                 simp [lookupF]
               rw [hl, hmapv, lookupPathLast_map_cons]
               exact ih sub hsubsz hv2 (b :: bs))
        · have hk2 : (k0 == s) = false := by simpa using hk
          have hne : k0 ≠ s := by simpa using hk2
          have hV : lookupPathLast (leavesV k0 v) (s :: qrest) = none := by
            apply lookupPathLast_none
            intro e he hcon
            obtain ⟨p', hp'⟩ := leavesV_shape k0 v e he
            rw [hp'] at hcon
            injection hcon with h1 _
            exact hne h1
          rw [hV, orO_none_right, ← ih tl htlsz htl]
          cases qrest with
          | nil =>
            rw [treeLook_single, treeLook_single]
            simp [lookupF, hk2]
          | cons b bs =>
            rw [treeLook_cons2, treeLook_cons2]
            simp [lookupF, hk2]

theorem treeLook_eq_leavesF (T : FieldList) (hwf : TreeWFf T) (q : List String) :
    treeLook T q = lookupPathLast (leavesF T) q :=
  treeLook_eq_leaves_aux (sizeOf T + 1) T (Nat.lt_succ_self _) hwf q

theorem flattenStep_nonobj (acc : FieldList) (px k0 : String) (v : Value)
    (h : isObjV v = false) : flattenStep acc px k0 v = setField acc (px ++ k0) v := by
  cases v <;> first | rfl | simp [isObjV] at h

theorem leavesV_nonobj (k0 : String) (v : Value) (h : isObjV v = false) :
    leavesV k0 v = [([k0], v)] := by
  cases v <;> first | rfl | simp [isObjV] at h

theorem flat_look_aux :
    ∀ n : Nat, ∀ T : FieldList, sizeOf T < n →
      ∀ acc : FieldList, ∀ px k : String,
        lookupF (flattenAcc acc px T) k =
          orO (lookupLeafLast (leavesF T) px k) (lookupF acc k) := by
  intro n
  induction n with
  | zero =>
    intro T h
    exact (Nat.not_lt_zero _ h).elim
  | succ n ih =>
    intro T hT acc px k
    cases T with
    | fnil => rfl
    | fcons k0 v tl =>
      have htlsz : sizeOf tl < n := by
        have h1 := sizeOf_fcons_tail k0 v tl
        omega
      rw [flattenAcc_cons, ih tl htlsz (flattenStep acc px k0 v) px k]
      have hsplit : leavesF (fcons k0 v tl) = leavesV k0 v ++ leavesF tl := rfl
      rw [hsplit, lookupLeafLast_append, orO_assoc]
      suffices h : lookupF (flattenStep acc px k0 v) k =
          orO (lookupLeafLast (leavesV k0 v) px k) (lookupF acc k) by
        rw [h]
      cases hov : isObjV v with
      | true =>
        cases v <;> simp [isObjV] at hov
        rename_i fs
        have hfssz : sizeOf fs < n := by
          have h1 := sizeOf_vObj_sub fs
          have h2 := sizeOf_fcons_val k0 (vObj fs) tl
          omega
        rw [flattenStep_obj,
          lookupF_assignFields _ acc (NodupF_flattenAcc fs fnil (px ++ k0 ++ ".") trivial) k,
          ih fs hfssz fnil (px ++ k0 ++ ".") k,
          show lookupF fnil k = none from rfl, orO_none_right]
        have hmv : leavesV k0 (vObj fs) = (leavesF fs).map fun pw => (k0 :: pw.1, pw.2) := rfl
        rw [hmv, lookupLeafLast_map_cons (leavesF fs) (leavesF_ne_nil fs) px k0 k]
      | false =>
        rw [flattenStep_nonobj acc px k0 v hov, lookupF_setField, leavesV_nonobj k0 v hov]
        by_cases hpk : px ++ k0 = k <;>
          simp [lookupLeafLast, joinSegs, orO, hpk]

theorem flat_lookupF (T : FieldList) (px k : String) :
    lookupF (flattenAcc fnil px T) k = lookupLeafLast (leavesF T) px k := by
  rw [flat_look_aux (sizeOf T + 1) T (Nat.lt_succ_self _) fnil px k,
    show lookupF fnil k = none from rfl, orO_none_right]

theorem lookupSplit_none_allfree (tl : FieldList) (p : List String)
    (h : ∀ k' ∈ keysF tl, freeB p (splitKey k') = true) : lookupSplit tl p = none := by
  refine FieldList.indOn (motive := fun tl =>
    (∀ k' ∈ keysF tl, freeB p (splitKey k') = true) → lookupSplit tl p = none) tl ?_ ?_ h
  · intro _
    rfl
  · intro k' v' tl2 ih h2
    have hk' := h2 k' (List.mem_cons_self _ _)
    by_cases hsp : splitKey k' = p
    · rw [hsp, freeB_self] at hk'
      cases hk'
    · show (if splitKey k' = p then some v' else lookupSplit tl2 p) = none
      rw [if_neg hsp]
      exact ih (fun k2 hk2 => h2 k2 (List.mem_cons_of_mem _ hk2))

theorem lookupSplit_some_key (F : FieldList) (q : List String)
    (h : lookupSplit F q ≠ none) : ∃ k', k' ∈ keysF F ∧ splitKey k' = q := by
  refine FieldList.indOn (motive := fun F =>
    lookupSplit F q ≠ none → ∃ k', k' ∈ keysF F ∧ splitKey k' = q) F ?_ ?_ h
  · intro h2
    exact absurd rfl h2
  · intro k0 v0 tl ih h2
    by_cases hsp : splitKey k0 = q
    · exact ⟨k0, List.mem_cons_self _ _, hsp⟩
    · have h3 : lookupSplit (fcons k0 v0 tl) q = lookupSplit tl q := by
        show (if splitKey k0 = q then some v0 else lookupSplit tl q) = _
        rw [if_neg hsp]
      rw [h3] at h2
      obtain ⟨k', hk', hs'⟩ := ih h2
      exact ⟨k', List.mem_cons_of_mem _ hk', hs'⟩

theorem mem_keys_lookup (F : FieldList) (k : String) (h : k ∈ keysF F) :
    lookupF F k ≠ none := by
  refine FieldList.indOn (motive := fun F => k ∈ keysF F → lookupF F k ≠ none) F ?_ ?_ h
  · intro h2
    cases h2
  · intro k0 v0 tl ih h2
    show (if k0 == k then some v0 else lookupF tl k) ≠ none
    by_cases hk : k0 == k
    · rw [if_pos hk]
      simp
    · rw [if_neg hk]
      rcases List.mem_cons.mp h2 with h3 | h3
      · exact absurd (by simp [h3] : (k0 == k) = true) hk
      · exact ih h3

theorem lookupF_some_mem_keys (F : FieldList) (k : String) (h : lookupF F k ≠ none) :
    k ∈ keysF F := by
  refine FieldList.indOn (motive := fun F => lookupF F k ≠ none → k ∈ keysF F) F ?_ ?_ h
  · intro h2
    exact absurd rfl h2
  · intro k0 v0 tl ih h2
    by_cases hk : k0 == k
    · have : k0 = k := by simpa using hk
      exact this ▸ List.mem_cons_self _ _
    · have h3 : lookupF (fcons k0 v0 tl) k = lookupF tl k := by
        show (if k0 == k then some v0 else lookupF tl k) = _
        rw [if_neg hk]
      rw [h3] at h2
      exact List.mem_cons_of_mem _ (ih h2)

theorem lookupSplit_splitKey (F : FieldList) (k : String) (v : Value)
    (hrt : ∀ k' ∈ keysF F, joinSegs (splitKey k') = k') (h : lookupF F k = some v) :
    lookupSplit F (splitKey k) = some v := by
  refine FieldList.indOn (motive := fun F =>
    (∀ k' ∈ keysF F, joinSegs (splitKey k') = k') → lookupF F k = some v →
      lookupSplit F (splitKey k) = some v) F ?_ ?_ hrt h
  · intro _ h2
    cases h2
  · intro k0 v0 tl ih hrt2 h2
    have hkmem : k ∈ keysF (fcons k0 v0 tl) := by
      apply lookupF_some_mem_keys
      rw [h2]
      simp
    by_cases hk : k0 == k
    · have hkk : k0 = k := by simpa using hk
      subst hkk
      have h3 : lookupF (fcons k0 v0 tl) k0 = some v0 := by
        show (if k0 == k0 then some v0 else lookupF tl k0) = _
        simp
      rw [h3] at h2
      show (if splitKey k0 = splitKey k0 then some v0 else lookupSplit tl (splitKey k0)) = some v
      rw [if_pos rfl]
      exact h2
    · have hne : k0 ≠ k := by simpa using hk
      have hsne : splitKey k0 ≠ splitKey k := by
        intro hcon
        apply hne
        have e1 := hrt2 k0 (List.mem_cons_self _ _)
        have e2 := hrt2 k hkmem
        rw [← e1, ← e2, hcon]
      have h3 : lookupF (fcons k0 v0 tl) k = lookupF tl k := by
        show (if k0 == k then some v0 else lookupF tl k) = _
        rw [if_neg hk]
      rw [h3] at h2
      show (if splitKey k0 = splitKey k then some v0 else lookupSplit tl (splitKey k)) = some v
      rw [if_neg hsne]
      have hkmemtl : k ∈ keysF tl := by
        rcases List.mem_cons.mp hkmem with h4 | h4
        · exact absurd h4.symm hne
        · exact h4
      exact ih (fun k' hk' => hrt2 k' (List.mem_cons_of_mem _ hk')) h2

/-- The `nestData` loop, characterised: under pairwise freedom the loop
succeeds and the result holds exactly the split keys as leaves, over whatever
the accumulator already held. -/
theorem nestFieldsAux_charac (fs : FieldList) :
    ∀ t : FieldList, TreeWFf t →
      (∀ k ∈ keysF fs, splitKey k ≠ []) →
      (∀ kv ∈ entriesF fs, isObjV kv.2 = false) →
      pairwiseFreeB ((keysF fs).map splitKey) = true →
      (∀ q, treeLook t q ≠ none → ∀ k ∈ keysF fs, freeB q (splitKey k) = true) →
      ∃ t', nestFieldsAux t fs = Except.ok t' ∧ TreeWFf t' ∧
        ∀ q, treeLook t' q = orO (lookupSplit fs q) (treeLook t q) := by
  refine FieldList.indOn (motive := fun fs => ∀ t : FieldList, TreeWFf t →
      (∀ k ∈ keysF fs, splitKey k ≠ []) →
      (∀ kv ∈ entriesF fs, isObjV kv.2 = false) →
      pairwiseFreeB ((keysF fs).map splitKey) = true →
      (∀ q, treeLook t q ≠ none → ∀ k ∈ keysF fs, freeB q (splitKey k) = true) →
      ∃ t', nestFieldsAux t fs = Except.ok t' ∧ TreeWFf t' ∧
        ∀ q, treeLook t' q = orO (lookupSplit fs q) (treeLook t q)) fs ?_ ?_
  · intro t hwf _ _ _ _
    exact ⟨t, rfl, hwf, fun q => rfl⟩
  · intro k0 v0 tl ih t hwf hne hobj hpf hfree
    have hk0mem : k0 ∈ keysF (fcons k0 v0 tl) := List.mem_cons_self _ _
    have hk0ne : splitKey k0 ≠ [] := hne k0 hk0mem
    have hk0obj : isObjV v0 = false := hobj (k0, v0) (List.mem_cons_self _ _)
    have hE : pairwiseFreeB ((keysF (fcons k0 v0 tl)).map splitKey) =
        ((((keysF tl).map splitKey).all fun q => freeB (splitKey k0) q) &&
          pairwiseFreeB ((keysF tl).map splitKey)) := rfl
    rw [hE, Bool.and_eq_true] at hpf
    have hfreeHead : ∀ q, treeLook t q ≠ none →
        isPreB q (splitKey k0) = false ∧ isPreB (splitKey k0) q = false := by
      intro q hq
      have h5 := hfree q hq k0 hk0mem
      simp only [freeB, Bool.and_eq_true, Bool.not_eq_true'] at h5
      exact h5
    obtain ⟨t1, h1eq, h1wf, h1q⟩ :=
      insertPath_charac (splitKey k0) t v0 hk0ne hk0obj hwf hfreeHead
    have hstep : nestFieldsAux t (fcons k0 v0 tl) = nestFieldsAux t1 tl := by
      show (do
        let acc2 ← insertPath t (splitKey k0) v0
        nestFieldsAux acc2 tl) = _
      rw [h1eq]
      rfl
    have hfree1 : ∀ q, treeLook t1 q ≠ none → ∀ k ∈ keysF tl, freeB q (splitKey k) = true := by
      intro q hq k hk
      rw [h1q q] at hq
      by_cases hqk : q = splitKey k0
      · subst hqk
        exact List.all_eq_true.mp hpf.1 _ (List.mem_map_of_mem _ hk)
      · rw [if_neg hqk] at hq
        exact hfree q hq k (List.mem_cons_of_mem _ hk)
    obtain ⟨t2, h2eq, h2wf, h2q⟩ := ih t1 h1wf
      (fun k hk => hne k (List.mem_cons_of_mem _ hk))
      (fun kv hkv => hobj kv (List.mem_cons_of_mem _ hkv))
      hpf.2 hfree1
    refine ⟨t2, ?_, h2wf, ?_⟩
    · rw [hstep]
      exact h2eq
    · intro q
      rw [h2q q, h1q q]
      by_cases hqk : q = splitKey k0
      · subst hqk
        rw [if_pos rfl]
        have hns : lookupSplit tl (splitKey k0) = none :=
          lookupSplit_none_allfree tl (splitKey k0)
            (fun k' hk' => List.all_eq_true.mp hpf.1 _ (List.mem_map_of_mem _ hk'))
        rw [hns, orO_none]
        show some v0 =
          orO (if splitKey k0 = splitKey k0 then some v0 else lookupSplit tl (splitKey k0))
            (treeLook t (splitKey k0))
        rw [if_pos rfl]
        rfl
      · rw [if_neg hqk]
        show orO (lookupSplit tl q) (treeLook t q) =
          orO (if splitKey k0 = q then some v0 else lookupSplit tl q) (treeLook t q)
        rw [if_neg (fun h => hqk h.symm)]

/-- Core of the round-trip law: nesting a good flat record succeeds and
flattening the result reads back the original record (as a mapping). -/
theorem roundtrip_core (F : FieldList) (hF : GoodFlatB F = true) :
    ∃ T : FieldList, nestData (vObj F) = Except.ok (vObj T) ∧
      ∀ k, lookupF (flattenData T) k = lookupF F k := by
  simp only [GoodFlatB, Bool.and_eq_true] at hF
  obtain ⟨⟨hKeys, hLeaf⟩, hPF⟩ := hF
  have hrt : ∀ k ∈ keysF F, splitKey k ≠ [] ∧ joinSegs (splitKey k) = k := by
    intro k hk
    have h7 := List.all_eq_true.mp hKeys k hk
    simp only [Bool.and_eq_true, Bool.not_eq_true', beq_iff_eq] at h7
    refine ⟨?_, h7.2⟩
    intro hcon
    rw [hcon] at h7
    simp at h7
  have hobj : ∀ kv ∈ entriesF F, isObjV kv.2 = false := by
    intro kv hkv
    have h8 := List.all_eq_true.mp hLeaf kv hkv
    simpa using h8
  obtain ⟨T, hok, hTwf, hTq⟩ := nestFieldsAux_charac F fnil trivial
    (fun k hk => (hrt k hk).1) hobj hPF
    (fun q hq => absurd (treeLook_fnil q) hq)
  have hTq2 : ∀ q, treeLook T q = lookupSplit F q := by
    intro q
    rw [hTq q, treeLook_fnil, orO_none_right]
  refine ⟨T, ?_, ?_⟩
  · show (nestFieldsAux fnil F).map vObj = Except.ok (vObj T)
    rw [hok]
    rfl
  · intro k
    rw [show flattenData T = flattenAcc fnil "" T from rfl, flat_lookupF]
    have hPL : ∀ q, lookupPathLast (leavesF T) q = lookupSplit F q := by
      intro q
      rw [← treeLook_eq_leavesF T hTwf q, hTq2 q]
    have hmemE : ∀ e ∈ leavesF T, ∃ k', k' ∈ keysF F ∧ splitKey k' = e.1 := by
      intro e he
      apply lookupSplit_some_key
      rw [← hPL e.1]
      exact lookupPathLast_mem _ e he
    cases hFk : lookupF F k with
    | some v =>
      have hkmem : k ∈ keysF F := lookupF_some_mem_keys F k (by rw [hFk]; simp)
      have hLS : lookupSplit F (splitKey k) = some v :=
        lookupSplit_splitKey F k v (fun k' hk' => (hrt k' hk').2) hFk
      have hiff : ∀ e ∈ leavesF T, ("" ++ joinSegs e.1 = k) ↔ e.1 = splitKey k := by
        intro e he
        constructor
        · intro hjk
          rw [strAppend_nil] at hjk
          obtain ⟨k', hk', hsk⟩ := hmemE e he
          have h6 := (hrt k' hk').2
          rw [hsk] at h6
          rw [h6] at hjk
          rw [← hjk]
          exact hsk.symm
        · intro hes
          rw [hes, strAppend_nil, (hrt k hkmem).2]
      rw [lastLeaf_via_path (leavesF T) "" k (splitKey k) hiff, hPL, hLS]
    | none =>
      apply lookupLeafLast_noneJ
      intro e he hcon
      rw [strAppend_nil] at hcon
      obtain ⟨k', hk', hsk⟩ := hmemE e he
      have h6 := (hrt k' hk').2
      rw [hsk] at h6
      rw [h6] at hcon
      subst hcon
      exact mem_keys_lookup F k' hk' hFk

/-- C3: round trip of the dot-path codec.  Both halves need the flat record
to be free of path-segment ambiguity: (1) for a flat record `F` with
`GoodFlatB F` (keys split into pairwise-free non-empty paths and no value is
a plain mapping), `flattenData (nestData F)` reads back exactly `F` — record
equality taken as mappings, since the codec does not preserve key order; and
(2) the nested-record half holds with the *amended* hypothesis
`GoodFlatB (flattenData N)` (the claim's bare "for every nested record N"
is refuted by `C3_roundtrip_counterexample`). -/
theorem C3_roundtrip (F N : FieldList)
    (hF : GoodFlatB F = true) (hN : GoodFlatB (flattenData N) = true) :
    (∃ T, nestData (vObj F) = Except.ok (vObj T) ∧
        flattenTop (vObj T) = Except.ok (vObj (flattenData T)) ∧
        ∀ k, lookupF (flattenData T) k = lookupF F k) ∧
    (∃ T, nestData (vObj (flattenData N)) = Except.ok (vObj T) ∧
        flattenTop (vObj T) = Except.ok (vObj (flattenData T)) ∧
        ∀ k, lookupF (flattenData T) k = lookupF (flattenData N) k) := by
  constructor
  · obtain ⟨T, h1, h2⟩ := roundtrip_core F hF
    exact ⟨T, h1, rfl, h2⟩
  · obtain ⟨T, h1, h2⟩ := roundtrip_core (flattenData N) hN
    exact ⟨T, h1, rfl, h2⟩

/-- C3, counterexample to the unconditional nested-record half: the nested
record `{a: 1, "a.b": 2}` has no plain-mapping leaf values, yet
`nestData (flattenData N)` throws a TypeError (so no amount of further
flattening equals `flattenData N`): the claim needs the ambiguity condition
on `flattenData N` too. -/
theorem C3_roundtrip_counterexample :
    ((entriesF (fcons "a" (vNum 1) (fcons "a.b" (vNum 2) fnil))).all
        fun kv => !isObjV kv.2) = true ∧
    nestData (vObj (flattenData (fcons "a" (vNum 1) (fcons "a.b" (vNum 2) fnil)))) =
      Except.error (JsError.typeError
        "Cannot create property 'b' on a non-object value at 'a'") :=
  ⟨rfl, rfl⟩

/-- C3, witness: the round trip evaluated at `F = {"a.b": 1, c: 2}` and
`N = {a: {b: 1}}`. -/
theorem C3_roundtrip_witness :
    GoodFlatB (fcons "a.b" (vNum 1) (fcons "c" (vNum 2) fnil)) = true ∧
    GoodFlatB (flattenData (fcons "a" (vObj (fcons "b" (vNum 1) fnil)) fnil)) = true ∧
    ((∃ T, nestData (vObj (fcons "a.b" (vNum 1) (fcons "c" (vNum 2) fnil))) =
          Except.ok (vObj T) ∧
        flattenTop (vObj T) = Except.ok (vObj (flattenData T)) ∧
        ∀ k, lookupF (flattenData T) k =
          lookupF (fcons "a.b" (vNum 1) (fcons "c" (vNum 2) fnil)) k) ∧
      (∃ T, nestData (vObj (flattenData (fcons "a" (vObj (fcons "b" (vNum 1) fnil)) fnil))) =
          Except.ok (vObj T) ∧
        flattenTop (vObj T) = Except.ok (vObj (flattenData T)) ∧
        ∀ k, lookupF (flattenData T) k =
          lookupF (flattenData (fcons "a" (vObj (fcons "b" (vNum 1) fnil)) fnil)) k)) :=
  ⟨rfl, rfl, C3_roundtrip _ _ rfl rfl⟩
